import Mathlib

/-!
Verification development for the uCPU two-pass assembler (`ucasm.c`).

The C program is shallowly embedded below.  Machine integers are modelled
as `Nat` with explicit truncation (`% 2 ^ 32` for `unsigned`, `% 256` for
`unsigned char`, clamping at `2 ^ 64 - 1` for `unsigned long`).  The
10000-entry label array and the 256-word rom array are modelled as total
functions `Nat → Nat` updated pointwise; the C sentinel
`INVALID = (unsigned)-1` is the number `2 ^ 32 - 1`, which no label id
(≤ 9999) and no address (< 256) can collide with.

In addition to the state, the embedding emits a list of events (`Ev`)
recording exactly the symbol-table writes, symbol-table reads performed by
operand resolution, duplicate-definition warnings and diagnostics, at the
program points where `ucasm.c` performs them.  The events are pure
instrumentation: theorems relate them back to the state.
-/

namespace Ucasm

/-- `INVALID`, i.e. `(unsigned)-1` from `ucasm.c`: the 32-bit value 4294967295. -/
def INVALID : Nat := 4294967295

/-- Operand class `REG` of `typedef enum {REG, IMM, LAB, IND} operand_t` (value 0). -/
def REG : Nat := 0

/-- Operand class `IMM` (value 1). -/
def IMM : Nat := 1

/-- Operand class `LAB` (value 2). -/
def LAB : Nat := 2

/-- `#define ORG 0x10`, the directive marker used as an opcode sentinel. -/
def ORG : Nat := 0x10

/-- Pointwise update of a total function, modelling an array store `f[k] = v`. -/
def upd (f : Nat → Nat) (k v : Nat) : Nat → Nat :=
  fun i => if i = k then v else f i

/-- One entry of the instruction table `token_t`. -/
structure TokEntry where
  name : List Char
  code : Nat
  ty : Nat
deriving DecidableEq

/-- The instruction table `const token_t token[18]` of `ucasm.c` (the final
`{NULL, INVALID, INVALID}` sentinel only terminates the C loop and is omitted). -/
def token : List TokEntry :=
  [ ⟨['A','N','A'], 0x0, REG⟩,
    ⟨['A','N','I'], 0x1, IMM⟩,
    ⟨['X','R','A'], 0x2, REG⟩,
    ⟨['X','R','I'], 0x3, IMM⟩,
    ⟨['A','D','A'], 0x4, REG⟩,
    ⟨['A','D','I'], 0x5, IMM⟩,
    ⟨['S','B','A'], 0x6, REG⟩,
    ⟨['S','B','I'], 0x7, IMM⟩,
    ⟨['B','N','C'], 0x8, LAB⟩,
    ⟨['B','N','Z'], 0x9, LAB⟩,
    ⟨['J','P','R'], 0xA, REG⟩,
    ⟨['J','M','P'], 0xB, LAB⟩,
    ⟨['L','D','A'], 0xC, REG⟩,
    ⟨['L','D','I'], 0xD, IMM⟩,
    ⟨['S','T','A'], 0xE, REG⟩,
    ⟨['S','T','X'], 0xF, REG⟩,
    ⟨['O','R','G'], ORG, IMM⟩ ]

/-- One entry of the indexed-addressing table `indreg_t`. -/
structure IndEntry where
  name : List Char
  code : Nat
deriving DecidableEq

/-- The indexed-addressing table `const indreg_t indreg[9]` of `ucasm.c`,
transcribed verbatim — including the entry `"@-YY"` (the source's header BNF
documents `"@-IY"` instead; the table is what the code matches against). -/
def indreg : List IndEntry :=
  [ ⟨['%','I','X'], 0xf8⟩,
    ⟨['%','I','Y'], 0xf9⟩,
    ⟨['@','I','X'], 0xfa⟩,
    ⟨['@','I','Y'], 0xfb⟩,
    ⟨['@','I','X','+'], 0xfc⟩,
    ⟨['@','I','Y','+'], 0xfd⟩,
    ⟨['@','-','I','X'], 0xfe⟩,
    ⟨['@','-','Y','Y'], 0xff⟩ ]

/-- The `memcmp(p, token[i].name, 3) == 0` test of `ucasm.c` line 188.
`memcmp` compares exactly three bytes.  Every table name has three non-NUL
bytes, and a token shorter than three characters has its terminating NUL
among the first three compared bytes, which cannot equal any name byte; so
the three bytes agree exactly when the token has at least 3 characters and
its first three equal the name. -/
def mnemMatch (t : List Char) (e : TokEntry) : Bool :=
  decide (3 ≤ t.length) && decide (t.take 3 = e.name)

/-- The instruction-table lookup loop of `ucasm.c` lines 187-193 (first match wins). -/
def mnemLookup (t : List Char) : Option TokEntry :=
  token.find? (fun e => mnemMatch t e)

/-- The indexed-addressing lookup loop of `ucasm.c` lines 222-226: `strcmp`
exact match, first match wins. -/
def indregLookup (t : List Char) : Option Nat :=
  (indreg.find? (fun e => decide (t = e.name))).map (fun e => e.code)

/-- The `isspace` set of the C locale, as skipped by `strtoul`: space (32),
tab (9), newline (10), vertical tab (11), form feed (12), carriage
return (13), compared on the character code. -/
def isSpaceC (c : Char) : Bool :=
  decide (c.toNat = 32) || decide (c.toNat = 9) || decide (c.toNat = 10) ||
  decide (c.toNat = 11) || decide (c.toNat = 12) || decide (c.toNat = 13)

/-- The `strtok` delimiter set `" \t\n"` of `ucasm.c` line 158. -/
def isDelim (c : Char) : Bool :=
  c == ' ' || c == '\t' || c == '\n'

/-- Value of one digit character in the given base (only bases 10 and 16 are
used by `ucasm.c`), `none` when the character is not a digit of that base. -/
def digitVal (base : Nat) (c : Char) : Option Nat :=
  if 48 ≤ c.toNat ∧ c.toNat ≤ 57 then
    (if c.toNat - 48 < base then some (c.toNat - 48) else none)
  else if base = 16 ∧ 97 ≤ c.toNat ∧ c.toNat ≤ 102 then some (c.toNat - 87)
  else if base = 16 ∧ 65 ≤ c.toNat ∧ c.toNat ≤ 70 then some (c.toNat - 55)
  else none

/-- Whether a character is a digit of the given base. -/
def isDigitB (base : Nat) (c : Char) : Bool :=
  (digitVal base c).isSome

/-- Numeric value of a digit string (most significant first). -/
def digitsToNat (base : Nat) (ds : List Char) : Nat :=
  ds.foldl (fun a c => a * base + ((digitVal base c).getD 0)) 0

/-- `ULONG_MAX` on the 64-bit platform the assembler targets. -/
def ULONG_MAX : Nat := 2 ^ 64 - 1

/-- Result of `strtoul(p, &q, base)`: the returned `unsigned long` value,
the number of consumed characters `q - p`, and the unconsumed suffix `*q...`. -/
structure StrtoulOut where
  val : Nat
  consumed : Nat
  rest : List Char
deriving DecidableEq

/-- Digit-run phase of `strtoul`, after whitespace and an optional sign have
been consumed (`pre` characters so far).  With no digits at all, C sets the
end pointer back to the start (`q = p`) and returns 0; on magnitude overflow
it returns `ULONG_MAX`; a `'-'` sign negates the value modulo `2 ^ 64`. -/
def strtoulCore (base : Nat) (s : List Char) (neg : Bool) (pre : Nat)
    (body : List Char) : StrtoulOut :=
  let ds := body.takeWhile (fun c => isDigitB base c)
  let rest := body.dropWhile (fun c => isDigitB base c)
  if ds = [] then ⟨0, 0, s⟩
  else
    let v := digitsToNat base ds
    let uv := if ULONG_MAX < v then ULONG_MAX
              else if neg then (2 ^ 64 - v) % 2 ^ 64 else v
    ⟨uv, pre + ds.length, rest⟩

/-- `strtoul(p, &q, base)` for bases 10 and 16: skip whitespace, accept an
optional single sign, then a run of digits.  (The base-16 `0x` prefix of C's
`strtoul` is not modelled: `ucasm.c` only calls base 16 with `max_width = 2`,
and any `0x`-prefixed subject either consumes more than 2 characters or
leaves the `x` unconsumed, so `parse_label` rejects it either way, exactly as
the model does.) -/
def strtoul (base : Nat) (s : List Char) : StrtoulOut :=
  let afterWs := s.dropWhile isSpaceC
  let wsLen := s.length - afterWs.length
  match afterWs with
  | '-' :: r => strtoulCore base s true (wsLen + 1) r
  | '+' :: r => strtoulCore base s false (wsLen + 1) r
  | _ => strtoulCore base s false wsLen afterWs

/-- `parse_label` of `ucasm.c` lines 85-95.  `lnum` is an `unsigned`, so the
`unsigned long` returned by `strtoul` is truncated modulo `2 ^ 32`; the
result is the parsed value when `lnum <= max_val && q - p <= max_width && !*q`,
and `INVALID` otherwise. -/
def parse_label (p : List Char) (base maxW maxV : Nat) : Nat :=
  let r := strtoul base p
  let lnum := r.val % 2 ^ 32
  if lnum ≤ maxV ∧ r.consumed ≤ maxW ∧ r.rest = [] then lnum else INVALID

/-- `str_toupper` of `ucasm.c` lines 78-83.  Its loop condition is `!*p`,
which is false at the first character of every nonempty string, so the
function returns every nonempty input unchanged (no upper-casing ever
happens).  Lines read by `fgets` are never empty, so the empty-string case
(a buffer overrun in C) is unreachable; the model maps it to itself. -/
def str_toupper (s : List Char) : List Char := s

/-- `strtok(src_line, " \t\n")` iteration of `ucasm.c` line 163: the line's
maximal runs of non-delimiter characters, in order. -/
def tokenize (l : List Char) : List (List Char) :=
  (l.splitOnP isDelim).filter (fun t => !t.isEmpty)

/-- Parser states of the per-line state machine, `enum {LABEL, MNEMONIC,
OPERAND, COMMENT} parser_state`. -/
inductive PState where
  | LABEL
  | MNEMONIC
  | OPERAND
  | COMMENT
deriving DecidableEq

/-- Numeric value of a parser state, for the C comparison `parser_state >= OPERAND`. -/
def PState.idx : PState → Nat
  | .LABEL => 0
  | .MNEMONIC => 1
  | .OPERAND => 2
  | .COMMENT => 3

/-- The per-line local variables of `main`'s while-loop body:
`lnum, olnum, optype, opcode` (all initialised to `INVALID`), `operand`
(initialised to 0), `name` (NULL, modelled by the flag `nameFound`), and the
parser state (initialised to `LABEL`). -/
structure LSt where
  lnum : Nat
  olnum : Nat
  optype : Nat
  opcode : Nat
  operand : Nat
  nameFound : Bool
  ps : PState
deriving DecidableEq

/-- Fresh per-line state at the top of the source-line loop. -/
def initLS : LSt := ⟨INVALID, INVALID, INVALID, INVALID, 0, false, .LABEL⟩

/-- The run-wide mutable state of `main`: `label[10000]`, `rom[256]`, `pc`
(an `unsigned char`), and the three diagnostic counters. -/
structure Glob where
  labels : Nat → Nat
  rom : Nat → Nat
  pc : Nat
  syn : Nat
  oth : Nat
  warn : Nat

/-- Instrumentation events, emitted at the exact program points of `ucasm.c`:
`decl L a w` at `label[lnum] = pc` (line 177; `a` is the written `pc`, `w`
records whether the pass-2 duplicate warning of lines 173-176 fired just
before the write), `refOk L a` at `operand = label[olnum]` (line 220),
`refUndefP1 L` at the silent pass-1 `break` on an undefined label (line 218),
`errUndef L` at the pass-2 "label not defined" error (lines 214-217), and
`synErr` at `++syntax_error` (line 307). -/
inductive Ev where
  | decl (lab addr : Nat) (warned : Bool)
  | refOk (lab addr : Nat)
  | refUndefP1 (lab : Nat)
  | errUndef (lab : Nat)
  | synErr
deriving DecidableEq

/-- Outcome of processing one token: `err` models `goto syntax_error`
(`++syntax_error` already applied, the rest of the line is ignored and no pc
advance happens), `stop` models `goto print_listing` from a comment token,
`go` models `continue` (and the bare `break` of line 218, which also returns
to the token loop). -/
inductive StepRes where
  | err (g : Glob) (evs : List Ev)
  | stop (g : Glob) (ls : LSt) (evs : List Ev)
  | go (g : Glob) (ls : LSt) (evs : List Ev)

/-- `set_operand:` label of `ucasm.c` lines 254-258:
`if (opcode < ORG) rom[pc] |= operand; parser_state = COMMENT;`. -/
def setOperand (g : Glob) (ls : LSt) (evs : List Ev) : StepRes :=
  let g1 := if ls.opcode < ORG then
              { g with rom := upd g.rom g.pc (g.rom g.pc ||| ls.operand) }
            else g
  .go g1 { ls with ps := .COMMENT } evs

/-- Tail of the hex-literal operand branch, `ucasm.c` lines 246-252: parse a
2-digit hex literal; failure is a pass-1 syntax error; for the `ORG`
directive the value becomes the new pc (an `unsigned char`, hence `% 256`);
then fall through to `set_operand`. -/
def hexOperand (sp : Bool) (g : Glob) (ls : LSt) (p : List Char) : StepRes :=
  let v := parse_label p 16 2 0xff
  if ¬sp ∧ v = INVALID then .err { g with syn := g.syn + 1 } [.synErr]
  else
    let g1 := if ls.opcode = ORG then { g with pc := v % 256 } else g
    setOperand g1 { ls with operand := v } []

/-- The `case OPERAND:` block of `ucasm.c` lines 202-258. -/
def stepOperand (sp : Bool) (g : Glob) (ls : LSt) (t : List Char) : StepRes :=
  if t.head? = some '$' then
    if ¬sp ∧ ls.optype ≠ LAB then .err { g with syn := g.syn + 1 } [.synErr]
    else
      let olnum := parse_label t.tail 10 4 9999
      if ¬sp ∧ olnum = INVALID then .err { g with syn := g.syn + 1 } [.synErr]
      else if g.labels olnum = INVALID then
        -- `break`: the error is only counted on pass 2; the parser state
        -- stays OPERAND and the token loop continues.
        if sp then .go { g with oth := g.oth + 1 } { ls with olnum := olnum } [.errUndef olnum]
        else .go g { ls with olnum := olnum } [.refUndefP1 olnum]
      else
        let a := g.labels olnum
        setOperand g { ls with olnum := olnum, operand := a } [.refOk olnum a]
  else
    let operand1 := match indregLookup t with
      | some c => c
      | none => ls.operand
    if operand1 ≠ 0 then
      if ¬sp ∧ ls.optype ≠ REG then .err { g with syn := g.syn + 1 } [.synErr]
      else setOperand g { ls with operand := operand1 } []
    else if t.head? = some '%' then
      if ¬sp ∧ ls.optype ≠ REG then .err { g with syn := g.syn + 1 } [.synErr]
      else hexOperand sp g ls t.tail
    else
      if ¬sp ∧ ls.optype = REG then .err { g with syn := g.syn + 1 } [.synErr]
      else hexOperand sp g ls t

/-- The `case MNEMONIC:` block of `ucasm.c` lines 182-201 (also reached by
fall-through from `case LABEL:` when the token has no `$`). -/
def stepMnem (sp : Bool) (g : Glob) (ls : LSt) (t : List Char) : StepRes :=
  if t.head? = some ';' then .stop g ls []
  else
    match mnemLookup t with
    | some e =>
      let g1 := if e.code < ORG then
                  { g with rom := upd g.rom g.pc (e.code <<< 8) }
                else g
      .go g1 { ls with nameFound := true, opcode := e.code, optype := e.ty, ps := .OPERAND } []
    | none =>
      if ¬sp then .err { g with syn := g.syn + 1 } [.synErr]
      else
        let g1 := if ls.opcode < ORG then
                    { g with rom := upd g.rom g.pc (ls.opcode <<< 8) }
                  else g
        .go g1 { ls with ps := .OPERAND } []

/-- The `switch (parser_state)` body of `ucasm.c` lines 164-262, for one token. -/
def step (sp : Bool) (g : Glob) (ls : LSt) (t : List Char) : StepRes :=
  match ls.ps with
  | .COMMENT => .stop g ls []
  | .MNEMONIC => stepMnem sp g ls t
  | .OPERAND => stepOperand sp g ls t
  | .LABEL =>
    if t.head? = some '$' then
      let lnum := parse_label t.tail 10 4 9999
      if ¬sp ∧ lnum = INVALID then .err { g with syn := g.syn + 1 } [.synErr]
      else
        let w := sp && decide (g.labels lnum ≠ g.pc)
        let g1 := { g with labels := upd g.labels lnum g.pc,
                           warn := g.warn + (if w then 1 else 0) }
        .go g1 { ls with lnum := lnum, ps := .MNEMONIC } [.decl lnum g.pc w]
    else stepMnem sp g ls t

/-- Result of the whole token loop for one line. -/
structure LoopOut where
  g : Glob
  ls : LSt
  evs : List Ev
  errored : Bool

/-- The `for (p = strtok(...); p != NULL; ...)` token loop. -/
def loop (sp : Bool) : List (List Char) → Glob → LSt → LoopOut
  | [], g, ls => ⟨g, ls, [], false⟩
  | t :: ts, g, ls =>
    match step sp g ls t with
    | .err g1 evs => ⟨g1, ls, evs, true⟩
    | .stop g1 ls1 evs => ⟨g1, ls1, evs, false⟩
    | .go g1 ls1 evs =>
      let r := loop sp ts g1 ls1
      ⟨r.g, r.ls, evs ++ r.evs, r.errored⟩

/-- One source line, given its token list: run the token loop, then (unless a
syntax error ignored the line) perform the only state change of the
`print_listing:` block, `ucasm.c` lines 280-289: when
`parser_state >= OPERAND && opcode < ORG`, advance pc (an `unsigned char`). -/
def runLineToks (sp : Bool) (g : Glob) (toks : List (List Char)) : Glob × List Ev :=
  let r := loop sp toks g initLS
  if r.errored then (r.g, r.evs)
  else if 2 ≤ r.ls.ps.idx ∧ r.ls.opcode < ORG then
    ({ r.g with pc := (r.g.pc + 1) % 256 }, r.evs)
  else (r.g, r.evs)

/-- One source line, from its raw text: `strdup`, (no-op) `str_toupper`,
`strtok` tokenization, then the token loop. -/
def runLine (sp : Bool) (g : Glob) (l : List Char) : Glob × List Ev :=
  runLineToks sp g (tokenize (str_toupper l))

/-- The source-line loop of a pass, threading the global state. -/
def runPassFrom (sp : Bool) : List (List Char) → Glob → Glob × List Ev
  | [], g => (g, [])
  | l :: ls, g =>
    let r1 := runLine sp g l
    let r2 := runPassFrom sp ls r1.1
    (r2.1, r1.2 ++ r2.2)

/-- One full pass over the source: `pc = 0;` (line 150) then every line. -/
def runPass (sp : Bool) (g : Glob) (src : List (List Char)) : Glob × List Ev :=
  runPassFrom sp src { g with pc := 0 }

/-- The initial global state of `main`: `label[i] = INVALID` for all i (lines
140-141).  `rom` is a local array that `ucasm.c` never initialises, so its
initial contents `rom0` (indeterminate stack memory in C) are a parameter of
the model. -/
def initGlob (rom0 : Nat → Nat) : Glob :=
  { labels := fun _ => INVALID, rom := rom0, pc := 0, syn := 0, oth := 0, warn := 0 }

/-- Observable outcome of a run of `main` (with a well-formed command line):
the process exit status, the hex image as written by lines 341-349 (none when
the program returns before producing it), whether the second pass ran, the
final global state, and the two passes' event logs. -/
structure Result where
  exit : Nat
  hex : Option (Nat → Nat)
  secondPassRan : Bool
  final : Glob
  p1log : List Ev
  p2log : List Ev

/-- The two-pass driver of `main`: pass 1 from the zeroed symbol table; the
`goto second_pass` happens only when `!syntax_error` (line 318), rewinding
the source but keeping `label[]` and `rom[]`; after the retained pass,
`syntax_error > 0` exits with status 1 and no hex file (lines 331-334),
otherwise the 256-word image is written and the status is 0 (lines 341-351). -/
def ucasm (rom0 : Nat → Nat) (src : List (List Char)) : Result :=
  let p1 := runPass false (initGlob rom0) src
  if p1.1.syn ≠ 0 then
    ⟨1, none, false, p1.1, p1.2, []⟩
  else
    let p2 := runPass true p1.1 src
    if p2.1.syn ≠ 0 then ⟨1, none, true, p2.1, p1.2, p2.2⟩
    else ⟨0, some p2.1.rom, true, p2.1, p1.2, p2.2⟩

/-! ### Instrumentation semantics: how events relate to the state -/

/-- Effect of one event on the symbol table. -/
def applyEv (f : Nat → Nat) : Ev → (Nat → Nat)
  | .decl lab addr _ => upd f lab addr
  | _ => f

/-- Effect of an event list on the symbol table. -/
def applyEvs (f : Nat → Nat) (evs : List Ev) : Nat → Nat :=
  evs.foldl applyEv f

/-- Addresses written by the declarations of label `L`, in order. -/
def declsOf (L : Nat) (evs : List Ev) : List Nat :=
  evs.filterMap (fun e => match e with
    | .decl lab addr _ => if lab = L then some addr else none
    | _ => none)

/-- Warned-flags of the declarations of label `L`, in order. -/
def declFlags (L : Nat) (evs : List Ev) : List Bool :=
  evs.filterMap (fun e => match e with
    | .decl lab _ w => if lab = L then some w else none
    | _ => none)

/-- Number of duplicate-definition warnings in an event list. -/
def warnCount (evs : List Ev) : Nat :=
  evs.countP (fun e => match e with
    | .decl _ _ w => w
    | _ => false)

/-- Number of "label not defined" semantic errors in an event list. -/
def othCount (evs : List Ev) : Nat :=
  evs.countP (fun e => match e with
    | .errUndef _ => true
    | _ => false)

/-- Number of syntax errors in an event list. -/
def synCount (evs : List Ev) : Nat :=
  evs.countP (fun e => match e with
    | .synErr => true
    | _ => false)

/-- Last element of a list, with a default: `lastD [] d = d`. -/
def lastD : List Nat → Nat → Nat
  | [], d => d
  | a :: r, _ => lastD r a

/-- The address recorded by the lexically last declaration of `L` in a log
(`INVALID` when `L` is never declared there). -/
def finalAddr (L : Nat) (evs : List Ev) : Nat :=
  lastD (declsOf L evs) INVALID

/-- An event is a symbol-table read (operand reference) of label `L`. -/
def isRef (L : Nat) : Ev → Prop
  | .refOk lab _ => lab = L
  | .refUndefP1 lab => lab = L
  | .errUndef lab => lab = L
  | _ => False

/-- Consistency of a single event with the symbol table `f` in force when it
was emitted, on pass 2 (`sp = true`) or pass 1: a declaration's warning flag
is exactly the pass-2 mismatch test `label[lnum] != pc`; a resolved reference
reads the stored, defined address; an undefined reference reads `INVALID`
(silent on pass 1, an error on pass 2); syntax errors only arise on pass 1. -/
def consHead (sp : Bool) (f : Nat → Nat) : Ev → Prop
  | .decl lab addr w => w = (sp && decide (f lab ≠ addr))
  | .refOk lab addr => f lab = addr ∧ addr ≠ INVALID
  | .refUndefP1 lab => f lab = INVALID ∧ sp = false
  | .errUndef lab => f lab = INVALID ∧ sp = true
  | .synErr => sp = false

/-- Consistency of a whole event list with an initial symbol table. -/
def Consistent (sp : Bool) : (Nat → Nat) → List Ev → Prop
  | _, [] => True
  | f, e :: r => consHead sp f e ∧ Consistent sp (applyEv f e) r

/-- Every declaration in the list wrote an address below 256 (a pc value). -/
def DeclB (evs : List Ev) : Prop :=
  ∀ lab addr w, Ev.decl lab addr w ∈ evs → addr < 256

/-- Global state reached by one token step. -/
def StepRes.gOut : StepRes → Glob
  | .err g _ => g
  | .stop g _ _ => g
  | .go g _ _ => g

/-- Events emitted by one token step. -/
def StepRes.evsOut : StepRes → List Ev
  | .err _ e => e
  | .stop _ _ e => e
  | .go _ _ e => e

/-- Everything a token step guarantees about the global state it returns,
relative to the state it received: the symbol table is the event-fold of the
incoming one, the emitted events are consistent with the incoming table, the
three diagnostic counters advance by the matching event counts, the pc is
either untouched or a truncated byte, and (from a byte pc) every declaration
records a byte address. -/
def StepOk (sp : Bool) (g : Glob) (r : StepRes) : Prop :=
  r.gOut.labels = applyEvs g.labels r.evsOut ∧
  Consistent sp g.labels r.evsOut ∧
  r.gOut.warn = g.warn + warnCount r.evsOut ∧
  r.gOut.oth = g.oth + othCount r.evsOut ∧
  r.gOut.syn = g.syn + synCount r.evsOut ∧
  (r.gOut.pc = g.pc ∨ r.gOut.pc < 256) ∧
  (g.pc < 256 → DeclB r.evsOut)

/-- What a whole run segment (token loop, line, or pass) guarantees about
the global state, relative to the state it started from. -/
def RunOk (sp : Bool) (g g2 : Glob) (evs : List Ev) : Prop :=
  g2.labels = applyEvs g.labels evs ∧
  Consistent sp g.labels evs ∧
  g2.warn = g.warn + warnCount evs ∧
  g2.oth = g.oth + othCount evs ∧
  g2.syn = g.syn + synCount evs ∧
  (g2.pc = g.pc ∨ g2.pc < 256) ∧
  (g.pc < 256 → DeclB evs)

/-- Expected pass-2 duplicate-warning flags for a declaration-address list,
given the address stored before the first of those declarations: the code
warns exactly when the stored address differs from the pc being written, and
then stores that pc. -/
def expectedWarns : Nat → List Nat → List Bool
  | _, [] => []
  | s, a :: r => (decide (s ≠ a)) :: expectedWarns a r

/-- Claim-side predicate, following C9's words only (not the source): the
part of a label token after the `$` marker is 1–4 decimal digits whose value
is at most 9999. -/
def claimLabelTok (s : List Char) : Prop :=
  1 ≤ s.length ∧ s.length ≤ 4 ∧ (∀ c ∈ s, isDigitB 10 c = true) ∧
  digitsToNat 10 s ≤ 9999

instance (s : List Char) : Decidable (claimLabelTok s) := by
  unfold claimLabelTok; infer_instance

/-- Amended characterization of the label tokens `parse_label` accepts after
the `$` marker, with the accepted value: the empty suffix (value 0), or
optional `strtoul` whitespace, an optional single sign and a nonempty digit
run — at most 4 characters in all — where a `-` sign is only accepted when
the digits denote zero (any other negation leaves a 32-bit value above 9999). -/
def amendedLabelVal (s : List Char) (n : Nat) : Prop :=
  (s = [] ∧ n = 0) ∨
  ∃ ws sg ds, s = ws ++ sg ++ ds ∧ (∀ c ∈ ws, isSpaceC c = true) ∧
    (sg = [] ∨ sg = ['+'] ∨ sg = ['-']) ∧ ds ≠ [] ∧
    (∀ c ∈ ds, isDigitB 10 c = true) ∧ s.length ≤ 4 ∧
    (sg = ['-'] → digitsToNat 10 ds = 0) ∧
    n = (if sg = ['-'] then 0 else digitsToNat 10 ds)

/-! ### Basic lemmas about the instrumentation -/

theorem applyEvs_nil (f : Nat → Nat) : applyEvs f [] = f := rfl

theorem applyEvs_cons (f : Nat → Nat) (e : Ev) (r : List Ev) :
    applyEvs f (e :: r) = applyEvs (applyEv f e) r := rfl

theorem applyEvs_append (f : Nat → Nat) (a b : List Ev) :
    applyEvs f (a ++ b) = applyEvs (applyEvs f a) b := by
  simp [applyEvs, List.foldl_append]

theorem Consistent_append (sp : Bool) (f : Nat → Nat) (a b : List Ev) :
    Consistent sp f (a ++ b) ↔ Consistent sp f a ∧ Consistent sp (applyEvs f a) b := by
  induction a generalizing f with
  | nil => simp [Consistent, applyEvs_nil]
  | cons e r ih => simp [Consistent, ih, applyEvs_cons, and_assoc]

theorem declsOf_cons (L : Nat) (e : Ev) (r : List Ev) :
    declsOf L (e :: r) =
      (match e with
        | .decl lab addr _ => if lab = L then addr :: declsOf L r else declsOf L r
        | _ => declsOf L r) := by
  cases e with
  | decl lab addr w =>
    by_cases h : lab = L <;> simp [declsOf, List.filterMap_cons, h]
  | refOk lab addr => simp [declsOf, List.filterMap_cons]
  | refUndefP1 lab => simp [declsOf, List.filterMap_cons]
  | errUndef lab => simp [declsOf, List.filterMap_cons]
  | synErr => simp [declsOf, List.filterMap_cons]

theorem declsOf_append (L : Nat) (a b : List Ev) :
    declsOf L (a ++ b) = declsOf L a ++ declsOf L b := by
  simp [declsOf, List.filterMap_append]

theorem lastD_cons (a : Nat) (r : List Nat) (d : Nat) :
    lastD (a :: r) d = lastD r a := rfl

theorem lastD_mem : ∀ (l : List Nat) (d : Nat), l ≠ [] → lastD l d ∈ l := by
  intro l
  induction l with
  | nil => intro d h; exact absurd rfl h
  | cons a r ih =>
    intro d _
    cases r with
    | nil => simp [lastD]
    | cons b s =>
      have := ih a (by simp)
      simp only [lastD_cons]
      exact List.mem_cons_of_mem a this

/-- The symbol table after an event list, at `L`: the last declared address
for `L`, defaulting to the incoming table value. -/
theorem applyEvs_at (L : Nat) : ∀ (evs : List Ev) (f : Nat → Nat),
    applyEvs f evs L = lastD (declsOf L evs) (f L) := by
  intro evs
  induction evs with
  | nil => intro f; rfl
  | cons e r ih =>
    intro f
    rw [applyEvs_cons, ih, declsOf_cons]
    cases e with
    | decl lab addr w =>
      by_cases h : lab = L
      · subst h; simp [lastD_cons, applyEv, upd]
      · have hne : L ≠ lab := fun h' => h h'.symm
        simp [h, applyEv, upd, if_neg hne]
    | refOk lab addr => rfl
    | refUndefP1 lab => rfl
    | errUndef lab => rfl
    | synErr => rfl

theorem warnCount_append (a b : List Ev) :
    warnCount (a ++ b) = warnCount a + warnCount b := by
  simp [warnCount, List.countP_append]

theorem othCount_append (a b : List Ev) :
    othCount (a ++ b) = othCount a + othCount b := by
  simp [othCount, List.countP_append]

theorem synCount_append (a b : List Ev) :
    synCount (a ++ b) = synCount a + synCount b := by
  simp [synCount, List.countP_append]

theorem DeclB_append (a b : List Ev) : DeclB (a ++ b) ↔ DeclB a ∧ DeclB b := by
  constructor
  · intro h
    exact ⟨fun lab addr w hm => h lab addr w (List.mem_append_left _ hm),
           fun lab addr w hm => h lab addr w (List.mem_append_right _ hm)⟩
  · rintro ⟨h1, h2⟩ lab addr w hm
    rcases List.mem_append.1 hm with hm | hm
    · exact h1 lab addr w hm
    · exact h2 lab addr w hm

/-- On the second pass no syntax-error event can be consistent. -/
theorem Consistent_true_synCount : ∀ (evs : List Ev) (f : Nat → Nat),
    Consistent true f evs → synCount evs = 0 := by
  intro evs
  induction evs with
  | nil => intro f _; rfl
  | cons e r ih =>
    intro f h
    rcases h with ⟨h1, h2⟩
    have hr := ih _ h2
    cases e with
    | decl lab addr w => simpa [synCount, List.countP_cons] using hr
    | refOk lab addr => simpa [synCount, List.countP_cons] using hr
    | refUndefP1 lab => simp [consHead] at h1
    | errUndef lab => simpa [synCount, List.countP_cons] using hr
    | synErr => simp [consHead] at h1

/-! ### Specification of one token step, the token loop, a line, a pass -/

theorem StepOk.mono {sp : Bool} {g g1 : Glob} {r : StepRes} (h : StepOk sp g1 r)
    (hl : g1.labels = g.labels) (hw : g1.warn = g.warn) (ho : g1.oth = g.oth)
    (hs : g1.syn = g.syn) (hp : g1.pc = g.pc ∨ g1.pc < 256) : StepOk sp g r := by
  obtain ⟨a, b, c, d, e, f, dd⟩ := h
  refine ⟨by rw [a, hl], by rw [← hl]; exact b, by rw [c, hw], by rw [d, ho],
    by rw [e, hs], ?_, ?_⟩
  · rcases f with f | f
    · rcases hp with hp | hp
      · exact Or.inl (by rw [f, hp])
      · exact Or.inr (by rw [f]; exact hp)
    · exact Or.inr f
  · intro h2
    rcases hp with hp | hp
    · exact dd (by rw [hp]; exact h2)
    · exact dd hp

theorem stepOk_err (sp : Bool) (g : Glob) (hsp : sp = false) :
    StepOk sp g (.err { g with syn := g.syn + 1 } [.synErr]) := by
  refine ⟨rfl, ⟨hsp, trivial⟩, ?_, ?_, ?_, Or.inl rfl, ?_⟩ <;>
    simp [StepRes.gOut, StepRes.evsOut, warnCount, othCount, synCount, DeclB,
      List.countP_cons]

theorem stepOk_noop (sp : Bool) (g : Glob) (r : StepRes)
    (hl : r.gOut.labels = g.labels) (hw : r.gOut.warn = g.warn)
    (ho : r.gOut.oth = g.oth) (hs : r.gOut.syn = g.syn)
    (hp : r.gOut.pc = g.pc) (he : r.evsOut = []) : StepOk sp g r := by
  refine ⟨?_, ?_, ?_, ?_, ?_, Or.inl hp, ?_⟩ <;>
    simp [hl, hw, ho, hs, he, applyEvs, Consistent, warnCount, othCount,
      synCount, DeclB]

theorem setOperand_ok (sp : Bool) (g : Glob) (ls : LSt) (evs : List Ev)
    (h1 : Consistent sp g.labels evs) (h2 : applyEvs g.labels evs = g.labels)
    (h3 : warnCount evs = 0) (h4 : othCount evs = 0) (h5 : synCount evs = 0)
    (h6 : DeclB evs) : StepOk sp g (setOperand g ls evs) := by
  unfold setOperand
  dsimp only
  split <;>
    exact ⟨by simp [StepRes.gOut, StepRes.evsOut, h2], h1,
      by simp [StepRes.gOut, StepRes.evsOut, h3],
      by simp [StepRes.gOut, StepRes.evsOut, h4],
      by simp [StepRes.gOut, StepRes.evsOut, h5],
      Or.inl rfl, fun _ => h6⟩

theorem hexOperand_ok (sp : Bool) (g : Glob) (ls : LSt) (p : List Char) :
    StepOk sp g (hexOperand sp g ls p) := by
  unfold hexOperand
  dsimp only
  split
  · rename_i h
    exact stepOk_err sp g (by simpa using h.1)
  · split
    · exact StepOk.mono
        (setOperand_ok sp { g with pc := parse_label p 16 2 0xff % 256 }
          { ls with operand := parse_label p 16 2 0xff } [] trivial rfl rfl rfl rfl
          (by simp [DeclB]))
        rfl rfl rfl rfl (Or.inr (Nat.mod_lt _ (by norm_num)))
    · exact setOperand_ok _ _ _ [] trivial rfl rfl rfl rfl (by simp [DeclB])

theorem stepMnem_ok (sp : Bool) (g : Glob) (ls : LSt) (t : List Char) :
    StepOk sp g (stepMnem sp g ls t) := by
  unfold stepMnem
  dsimp only
  split
  · exact stepOk_noop sp g _ rfl rfl rfl rfl rfl rfl
  · split
    · split <;> exact stepOk_noop sp g _ rfl rfl rfl rfl rfl rfl
    · split
      · rename_i h
        exact stepOk_err sp g (by simpa using h)
      · split <;> exact stepOk_noop sp g _ rfl rfl rfl rfl rfl rfl

theorem stepOperand_ok (sp : Bool) (g : Glob) (ls : LSt) (t : List Char) :
    StepOk sp g (stepOperand sp g ls t) := by
  unfold stepOperand
  dsimp only
  split
  · -- label-reference operand
    split
    · rename_i h
      exact stepOk_err sp g (by simpa using h.1)
    · split
      · rename_i h
        exact stepOk_err sp g (by simpa using h.1)
      · split
        · -- undefined label
          split
          · rename_i hundef hsp
            refine ⟨rfl, ⟨⟨hundef, hsp⟩, trivial⟩, ?_, ?_, ?_, Or.inl rfl, ?_⟩ <;>
              simp [StepRes.gOut, StepRes.evsOut, warnCount, othCount, synCount,
                DeclB, List.countP_cons]
          · rename_i hundef hsp
            refine ⟨rfl, ⟨⟨hundef, by simpa using hsp⟩, trivial⟩, ?_, ?_, ?_,
              Or.inl rfl, ?_⟩ <;>
              simp [StepRes.gOut, StepRes.evsOut, warnCount, othCount, synCount,
                DeclB, List.countP_cons]
        · rename_i hdef
          refine setOperand_ok _ _ _ _ ⟨⟨rfl, hdef⟩, trivial⟩ rfl ?_ ?_ ?_ ?_ <;>
            simp [warnCount, othCount, synCount, DeclB, List.countP_cons]
  · -- indexed-register / hex operand
    split
    · split
      · rename_i h
        exact stepOk_err sp g (by simpa using h.1)
      · exact setOperand_ok _ _ _ [] trivial rfl rfl rfl rfl (by simp [DeclB])
    · split
      · split
        · rename_i h
          exact stepOk_err sp g (by simpa using h.1)
        · exact hexOperand_ok sp g _ _
      · split
        · rename_i h
          exact stepOk_err sp g (by simpa using h.1)
        · exact hexOperand_ok sp g _ _

theorem step_ok (sp : Bool) (g : Glob) (ls : LSt) (t : List Char) :
    StepOk sp g (step sp g ls t) := by
  unfold step
  split
  · exact stepOk_noop sp g _ rfl rfl rfl rfl rfl rfl
  · exact stepMnem_ok sp g ls t
  · exact stepOperand_ok sp g ls t
  · dsimp only
    split
    · split
      · rename_i h
        exact stepOk_err sp g (by simpa using h.1)
      · refine ⟨rfl, ⟨rfl, trivial⟩, ?_, ?_, ?_, Or.inl rfl, ?_⟩
        · simp [StepRes.gOut, StepRes.evsOut, warnCount, List.countP_cons]
        · simp [StepRes.gOut, StepRes.evsOut, othCount, List.countP_cons]
        · simp [StepRes.gOut, StepRes.evsOut, synCount, List.countP_cons]
        · intro h2 lab addr w hm
          simp only [StepRes.evsOut, List.mem_singleton] at hm
          injection hm with h4 h5 h6
          exact h5 ▸ h2
    · exact stepMnem_ok sp g ls t

theorem RunOk.refl (sp : Bool) (g : Glob) : RunOk sp g g [] :=
  ⟨rfl, trivial, rfl, rfl, rfl, Or.inl rfl, fun _ => by simp [DeclB]⟩

theorem RunOk.comp {sp : Bool} {g g1 g2 : Glob} {e1 e2 : List Ev}
    (h1 : RunOk sp g g1 e1) (h2 : RunOk sp g1 g2 e2) : RunOk sp g g2 (e1 ++ e2) := by
  obtain ⟨a1, b1, c1, d1, e1', f1, k1⟩ := h1
  obtain ⟨a2, b2, c2, d2, e2', f2, k2⟩ := h2
  have hpc1 : g.pc < 256 → g1.pc < 256 := by
    intro h
    rcases f1 with f | f
    · rw [f]; exact h
    · exact f
  refine ⟨?_, ?_, ?_, ?_, ?_, ?_, ?_⟩
  · rw [applyEvs_append, ← a1, a2]
  · rw [Consistent_append]
    exact ⟨b1, by rw [← a1]; exact b2⟩
  · rw [warnCount_append, c2, c1]; omega
  · rw [othCount_append, d2, d1]; omega
  · rw [synCount_append, e2', e1']; omega
  · rcases f2 with f | f
    · rcases f1 with f' | f'
      · exact Or.inl (by rw [f, f'])
      · exact Or.inr (by rw [f]; exact f')
    · exact Or.inr f
  · intro h
    exact (DeclB_append e1 e2).2 ⟨k1 h, k2 (hpc1 h)⟩

theorem stepOk_runOk {sp : Bool} {g : Glob} {r : StepRes} (h : StepOk sp g r) :
    RunOk sp g r.gOut r.evsOut := h

theorem loop_ok (sp : Bool) : ∀ (toks : List (List Char)) (g : Glob) (ls : LSt),
    RunOk sp g (loop sp toks g ls).g (loop sp toks g ls).evs := by
  intro toks
  induction toks with
  | nil => intro g ls; exact RunOk.refl sp g
  | cons t ts ih =>
    intro g ls
    have hs := step_ok sp g ls t
    cases hstep : step sp g ls t with
    | err g1 evs =>
      rw [hstep] at hs
      simpa [loop, hstep] using (stepOk_runOk hs)
    | stop g1 ls1 evs =>
      rw [hstep] at hs
      simpa [loop, hstep] using (stepOk_runOk hs)
    | go g1 ls1 evs =>
      rw [hstep] at hs
      have h2 := ih g1 ls1
      simpa [loop, hstep] using RunOk.comp (stepOk_runOk hs) h2

theorem runLineToks_ok (sp : Bool) (g : Glob) (toks : List (List Char)) :
    RunOk sp g (runLineToks sp g toks).1 (runLineToks sp g toks).2 := by
  have h := loop_ok sp toks g initLS
  unfold runLineToks
  dsimp only
  split
  · exact h
  · split
    · obtain ⟨a, b, c, d, e, f, k⟩ := h
      exact ⟨a, b, c, d, e, Or.inr (Nat.mod_lt _ (by norm_num)), k⟩
    · exact h

theorem runLine_ok (sp : Bool) (g : Glob) (l : List Char) :
    RunOk sp g (runLine sp g l).1 (runLine sp g l).2 :=
  runLineToks_ok sp g _

theorem runPassFrom_ok (sp : Bool) : ∀ (src : List (List Char)) (g : Glob),
    RunOk sp g (runPassFrom sp src g).1 (runPassFrom sp src g).2 := by
  intro src
  induction src with
  | nil => intro g; exact RunOk.refl sp g
  | cons l ls ih =>
    intro g
    have h1 := runLine_ok sp g l
    have h2 := ih (runLine sp g l).1
    simpa [runPassFrom] using RunOk.comp h1 h2

/-- Everything a pass guarantees: the pass starts with `pc = 0`, so every
declaration records a byte address unconditionally. -/
theorem runPass_ok (sp : Bool) (g : Glob) (src : List (List Char)) :
    (runPass sp g src).1.labels = applyEvs g.labels (runPass sp g src).2 ∧
    Consistent sp g.labels (runPass sp g src).2 ∧
    (runPass sp g src).1.warn = g.warn + warnCount (runPass sp g src).2 ∧
    (runPass sp g src).1.oth = g.oth + othCount (runPass sp g src).2 ∧
    (runPass sp g src).1.syn = g.syn + synCount (runPass sp g src).2 ∧
    DeclB (runPass sp g src).2 := by
  have h := runPassFrom_ok sp src { g with pc := 0 }
  obtain ⟨a, b, c, d, e, _, k⟩ := h
  exact ⟨a, b, c, d, e, k (by norm_num)⟩

end Ucasm

namespace Ucasm

/-! ### Further helper lemmas -/

theorem declsOf_mem {L x : Nat} {evs : List Ev} (h : x ∈ declsOf L evs) :
    ∃ w, Ev.decl L x w ∈ evs := by
  rcases List.mem_filterMap.1 h with ⟨e, he, hfe⟩
  cases e with
  | decl lab addr w =>
    by_cases hl : lab = L
    · simp only [hl, if_pos rfl] at hfe
      refine ⟨w, ?_⟩
      have : addr = x := by simpa using hfe
      rw [← this, ← hl]
      exact he
    · simp [hl] at hfe
  | refOk lab addr => simp at hfe
  | refUndefP1 lab => simp at hfe
  | errUndef lab => simp at hfe
  | synErr => simp at hfe

theorem initGlob_labels (rom0 : Nat → Nat) (L : Nat) :
    (initGlob rom0).labels L = INVALID := rfl

/-- Elements of a pass's per-label declaration list are pc values. -/
theorem declsOf_lt (sp : Bool) (g : Glob) (src : List (List Char)) (L x : Nat)
    (h : x ∈ declsOf L (runPass sp g src).2) : x < 256 := by
  obtain ⟨-, -, -, -, -, hd⟩ := runPass_ok sp g src
  rcases declsOf_mem h with ⟨w, hw⟩
  exact hd L x w hw

end Ucasm

namespace Ucasm

/-- C1: the 256-word image is NOT zero-initialized: `rom[256]` is an
uninitialized local of `main`, so words never written by an instruction hold
the indeterminate initial stack contents, not zero.  With the source
`LDI 05`, address 1 is never written; starting from initial rom contents
0xABC the emitted image holds 0xABC there, and from all-zero contents it
holds 0 — the output depends on the indeterminate initial memory, refuting
the zero-fill invariant. -/
theorem C1_rom_uninitialized :
    ((ucasm (fun _ => 0xABC) ["LDI 05".toList]).hex.map (fun h => h 1)) = some 0xABC ∧
    ((ucasm (fun _ => 0) ["LDI 05".toList]).hex.map (fun h => h 1)) = some 0 ∧
    (ucasm (fun _ => 0xABC) ["LDI 05".toList]).exit = 0 ∧
    ((ucasm (fun _ => 0xABC) ["LDI 05".toList]).hex.map (fun h => h 0)) = some 0xD05 ∧
    (0xABC : Nat) ≠ 0 :=
  ⟨rfl, rfl, rfl, rfl, by decide⟩

/-- C4: case-insensitivity is broken: `str_toupper` tests `!*p` instead of
`*p`, so the source line is never upper-cased and mnemonic matching is
byte-exact.  `LDI 05` assembles to the word 0xD05 with exit status 0, while
its lower-cased token equivalent `ldi 05` fails mnemonic lookup, records a
pass-1 syntax error, produces no image and exits with status 1 — the images
are not identical, contradicting the code's own header comment "The syntax
is case-insensitive." -/
theorem C4_case_sensitivity_bug :
    (ucasm (fun _ => 0) ["LDI 05".toList]).exit = 0 ∧
    ((ucasm (fun _ => 0) ["LDI 05".toList]).hex.map (fun h => h 0)) = some 0xD05 ∧
    (ucasm (fun _ => 0) ["ldi 05".toList]).exit = 1 ∧
    (ucasm (fun _ => 0) ["ldi 05".toList]).hex = none ∧
    (ucasm (fun _ => 0) ["ldi 05".toList]).final.syn = 1 ∧
    str_toupper ("ldi 05".toList) = "ldi 05".toList :=
  ⟨rfl, rfl, rfl, rfl, rfl, rfl⟩

/-- C7: the pre-decrement form on IY is NOT accepted: the `indreg` table
contains the typographical variant `@-YY` (code 0xFF) where the source's own
header BNF documents `@-IY`.  Lookup of `@-IY` fails, so `ANA @-IY` is
rejected with a pass-1 syntax error (exit 1, no image), while the
undocumented spelling `ANA @-YY` is accepted and encodes 0x0FF. -/
theorem C7_iy_predecrement_bug :
    indregLookup ("@-IY".toList) = none ∧
    indregLookup ("@-YY".toList) = some 0xff ∧
    (ucasm (fun _ => 0) ["ANA @-IY".toList]).exit = 1 ∧
    (ucasm (fun _ => 0) ["ANA @-IY".toList]).hex = none ∧
    (ucasm (fun _ => 0) ["ANA @-IY".toList]).final.syn = 1 ∧
    (ucasm (fun _ => 0) ["ANA @-YY".toList]).exit = 0 ∧
    ((ucasm (fun _ => 0) ["ANA @-YY".toList]).hex.map (fun h => h 0)) = some 0x0FF :=
  ⟨rfl, rfl, rfl, rfl, rfl, rfl, rfl⟩

/-- C3 counterexample: label 1 is declared N = 2 times, at the distinct
addresses 0 and 2, in `$1 ADI 00` / `JMP $1` / `$1 ADI 01`.  The reference
between the declarations resolves to 0 — the FIRST declaration's address —
so the word at address 1 is 0xB00, not the 0xB02 the claim's
"address of the lexically last declaration" requires; and 2 warnings are
emitted, not N - 1 = 1, because each pass-2 declaration finds a mismatching
stored address and then overwrites it with the current pc. -/
theorem C3_counterexample :
    declsOf 1 (ucasm (fun _ => 0)
      ["$1 ADI 00".toList, "JMP $1".toList, "$1 ADI 01".toList]).p2log = [0, 2] ∧
    ((ucasm (fun _ => 0)
      ["$1 ADI 00".toList, "JMP $1".toList, "$1 ADI 01".toList]).hex.map
        (fun h => h 1)) = some 0xB00 ∧
    (ucasm (fun _ => 0)
      ["$1 ADI 00".toList, "JMP $1".toList, "$1 ADI 01".toList]).final.warn = 2 ∧
    (2 : Nat) ≠ 2 - 1 ∧
    some (0xB00 : Nat) ≠ some (0xB02 : Nat) :=
  ⟨rfl, rfl, rfl, by decide, by decide⟩

/-- C6 counterexample: the mnemonic lookup is `memcmp(p, name, 3)`, a
3-byte prefix match.  The token `ANAX` is not one of the 17 table spellings
(case-insensitively or otherwise), yet lookup succeeds, returning the `ANA`
entry, and `ANAX %00` assembles with zero syntax errors and exit status 0 —
refuting "tokens that merely begin with a valid mnemonic but have trailing
characters are lookup failures".  (Also, since no upper-casing ever happens,
matching is byte-exact: the lower-case spelling `ana` fails lookup.) -/
theorem C6_counterexample :
    mnemLookup ("ANAX".toList) = some ⟨"ANA".toList, 0x0, REG⟩ ∧
    (∀ e ∈ token, "ANAX".toList ≠ e.name) ∧
    (ucasm (fun _ => 0) ["ANAX %00".toList]).final.syn = 0 ∧
    (ucasm (fun _ => 0) ["ANAX %00".toList]).exit = 0 ∧
    mnemLookup ("ana".toList) = none :=
  ⟨rfl, by decide, rfl, rfl, rfl⟩

/-- C9 counterexample: `parse_label` is built on `strtoul`, which accepts an
empty digit string (returning 0 with `q = p`, so a bare `$` declares label 0)
and an optional sign (the source even documents "Even $+01!").  Both `$`
(zero digits) and `$+01` (sign, not a digit) violate "the label marker
followed by 1–4 decimal digits", yet both are accepted — `$` even assembles
with zero syntax errors where the claim requires one. -/
theorem C9_counterexample :
    parse_label [] 10 4 9999 = 0 ∧
    (0 : Nat) ≠ INVALID ∧
    ¬claimLabelTok [] ∧
    parse_label ("+01".toList) 10 4 9999 = 1 ∧
    ¬claimLabelTok ("+01".toList) ∧
    (ucasm (fun _ => 0) ["$".toList]).final.syn = 0 ∧
    (ucasm (fun _ => 0) ["$".toList]).exit = 0 :=
  ⟨rfl, by decide, by decide, rfl, by decide, rfl, rfl⟩

/-- C5: if pass 1 records at least one syntax error, the second pass does
not run, no hex image is produced, and the exit status is 1; with zero
pass-1 syntax errors the second pass runs, the hex image (the pass-2 rom) is
produced and the exit status is 0 — regardless of semantic errors or
warnings, since only `syntax_error` is consulted, and the second pass can
never raise a syntax error (every `goto syntax_error` is guarded by
`!second_pass`). -/
theorem C5_error_gate (rom0 : Nat → Nat) (src : List (List Char)) :
    ((runPass false (initGlob rom0) src).1.syn ≠ 0 →
      (ucasm rom0 src).exit = 1 ∧ (ucasm rom0 src).hex = none ∧
      (ucasm rom0 src).secondPassRan = false) ∧
    ((runPass false (initGlob rom0) src).1.syn = 0 →
      (ucasm rom0 src).exit = 0 ∧
      (ucasm rom0 src).hex =
        some (runPass true (runPass false (initGlob rom0) src).1 src).1.rom ∧
      (ucasm rom0 src).secondPassRan = true) := by
  constructor
  · intro h
    unfold ucasm
    dsimp only
    rw [if_pos h]
    exact ⟨rfl, rfl, rfl⟩
  · intro h
    have hp2 : (runPass true (runPass false (initGlob rom0) src).1 src).1.syn = 0 := by
      obtain ⟨-, hcons, -, -, hsyn, -⟩ :=
        runPass_ok true (runPass false (initGlob rom0) src).1 src
      rw [hsyn, h, Consistent_true_synCount _ _ hcons]
    unfold ucasm
    dsimp only
    rw [if_neg (by simp [h]), if_neg (by simp [hp2])]
    exact ⟨rfl, rfl, rfl⟩

/-- C5 witness: `FOO 01` (unknown mnemonic) hits the syntax-error branch;
`JMP $5` (undefined label: a semantic error, no syntax error) hits the
success branch. -/
theorem C5_error_gate_witness :
    ((ucasm (fun _ => 0) ["FOO 01".toList]).exit = 1 ∧
      (ucasm (fun _ => 0) ["FOO 01".toList]).hex = none ∧
      (ucasm (fun _ => 0) ["FOO 01".toList]).secondPassRan = false) ∧
    ((ucasm (fun _ => 0) ["JMP $5".toList]).exit = 0 ∧
      (ucasm (fun _ => 0) ["JMP $5".toList]).secondPassRan = true ∧
      (ucasm (fun _ => 0) ["JMP $5".toList]).final.oth = 1) :=
  ⟨(C5_error_gate (fun _ => 0) ["FOO 01".toList]).1 (by decide),
   ⟨((C5_error_gate (fun _ => 0) ["JMP $5".toList]).2 (by decide)).1,
    ((C5_error_gate (fun _ => 0) ["JMP $5".toList]).2 (by decide)).2.2,
    rfl⟩⟩

end Ucasm

namespace Ucasm

theorem Consistent_cons (sp : Bool) (f : Nat → Nat) (e : Ev) (r : List Ev) :
    Consistent sp f (e :: r) ↔ consHead sp f e ∧ Consistent sp (applyEv f e) r :=
  Iff.rfl

/-- C2: a forward reference — an operand reference to label `L` that precedes
every declaration of `L` (no pass-2 declaration of `L` occurs before it in the
retained pass's event log), for a label that pass 1 did declare — is resolved
by pass 2 to the final address established for `L` by the completed first
scan (the address recorded by the lexically last declaration), and no
"label not defined" semantic error is recorded for it. -/
theorem C2_forward_reference (rom0 : Nat → Nat) (src : List (List Char)) (L : Nat)
    (u v : List Ev) (ev : Ev)
    (_hsyn : (runPass false (initGlob rom0) src).1.syn = 0)
    (hdecl : declsOf L (runPass false (initGlob rom0) src).2 ≠ [])
    (hsplit : (runPass true (runPass false (initGlob rom0) src).1 src).2 = u ++ ev :: v)
    (href : isRef L ev)
    (hbefore : declsOf L u = []) :
    ev = Ev.refOk L (finalAddr L (runPass false (initGlob rom0) src).2) ∧
    (∀ M, ev ≠ Ev.errUndef M) ∧
    finalAddr L (runPass false (initGlob rom0) src).2 =
      (runPass false (initGlob rom0) src).1.labels L := by
  obtain ⟨hl1, hc1, -, -, -, hd1⟩ := runPass_ok false (initGlob rom0) src
  obtain ⟨hl2, hc2, -, -, -, hd2⟩ := runPass_ok true (runPass false (initGlob rom0) src).1 src
  have hfin : finalAddr L (runPass false (initGlob rom0) src).2 =
      (runPass false (initGlob rom0) src).1.labels L := by
    rw [hl1, applyEvs_at]
    rfl
  have hmem : finalAddr L (runPass false (initGlob rom0) src).2 ∈
      declsOf L (runPass false (initGlob rom0) src).2 := lastD_mem _ _ hdecl
  have hlt : finalAddr L (runPass false (initGlob rom0) src).2 < 256 := by
    rcases declsOf_mem hmem with ⟨w, hw⟩
    exact hd1 L _ w hw
  have hni : finalAddr L (runPass false (initGlob rom0) src).2 ≠ INVALID := by
    unfold INVALID
    omega
  rw [hsplit, Consistent_append] at hc2
  have hhead := ((Consistent_cons _ _ _ _).1 hc2.2).1
  have hval : applyEvs (runPass false (initGlob rom0) src).1.labels u L =
      finalAddr L (runPass false (initGlob rom0) src).2 := by
    rw [applyEvs_at, hbefore, hfin]
    rfl
  cases ev with
  | refOk lab addr =>
    have hlab : lab = L := href
    subst hlab
    have hfa : applyEvs (runPass false (initGlob rom0) src).1.labels u lab = addr :=
      hhead.1
    rw [hval] at hfa
    exact ⟨by rw [hfa], fun M => by simp, hfin⟩
  | refUndefP1 lab =>
    have hsp : (true : Bool) = false := hhead.2
    exact absurd hsp (by decide)
  | errUndef lab =>
    have hlab : lab = L := href
    subst hlab
    have hfa : applyEvs (runPass false (initGlob rom0) src).1.labels u lab = INVALID :=
      hhead.1
    rw [hval] at hfa
    exact absurd hfa hni
  | decl lab addr w => exact absurd href (by simp [isRef])
  | synErr => exact absurd href (by simp [isRef])

/-- C2 witness: in `JMP $1` / `$1 ADI 00`, the reference on line 0 precedes
the declaration of label 1; pass 2 resolves it to address 1, the final
address from pass 1. -/
theorem C2_forward_reference_witness :
    Ev.refOk 1 1 = Ev.refOk 1 (finalAddr 1
      (runPass false (initGlob (fun _ => 0))
        ["JMP $1".toList, "$1 ADI 00".toList]).2) ∧
    (∀ M, Ev.refOk 1 1 ≠ Ev.errUndef M) := by
  have h := C2_forward_reference (fun _ => 0)
    ["JMP $1".toList, "$1 ADI 00".toList] 1
    [] [Ev.decl 1 1 false] (Ev.refOk 1 1)
    (by decide) (by decide) (by rfl) rfl rfl
  exact ⟨h.1, h.2.1⟩

/-- C8: the symbol table starts fully UNDEFINED (`label[i] = INVALID` before
pass 1), is carried unchanged across the pass boundary (the final table is
the fold of BOTH passes' declaration events over the initial all-UNDEFINED
table — nothing resets it in between), any reference to an id with no
declaration seen earlier in the combined two-pass event history finds
UNDEFINED (the silent pass-1 skip or the pass-2 semantic error), and a label
declaration writes exactly the current pc into the table at that id. -/
theorem C8_symbol_table (rom0 : Nat → Nat) (src : List (List Char)) :
    (∀ L, (initGlob rom0).labels L = INVALID) ∧
    (runPass true (runPass false (initGlob rom0) src).1 src).1.labels =
      applyEvs (initGlob rom0).labels
        ((runPass false (initGlob rom0) src).2 ++
          (runPass true (runPass false (initGlob rom0) src).1 src).2) ∧
    (∀ L pre ev post,
      (runPass false (initGlob rom0) src).2 ++
          (runPass true (runPass false (initGlob rom0) src).1 src).2 =
        pre ++ ev :: post →
      isRef L ev → declsOf L pre = [] →
      ev = Ev.refUndefP1 L ∨ ev = Ev.errUndef L) ∧
    (∀ (sp : Bool) (g : Glob) (ls : LSt) (t : List Char) (L : Nat),
      ls.ps = PState.LABEL → t.head? = some '$' →
      parse_label t.tail 10 4 9999 = L → L ≠ INVALID →
      (step sp g ls t).gOut.labels = upd g.labels L g.pc ∧
      (step sp g ls t).evsOut = [Ev.decl L g.pc (sp && decide (g.labels L ≠ g.pc))] ∧
      upd g.labels L g.pc L = g.pc) := by
  obtain ⟨hl1, hc1, -, -, -, hd1⟩ := runPass_ok false (initGlob rom0) src
  obtain ⟨hl2, hc2, -, -, -, hd2⟩ := runPass_ok true (runPass false (initGlob rom0) src).1 src
  refine ⟨fun L => rfl, ?_, ?_, ?_⟩
  · rw [applyEvs_append, ← hl1, hl2]
  · intro L pre ev post hsplit href hpre
    -- the split lands inside pass 1's log or inside pass 2's log
    rcases List.append_eq_append_iff.1 hsplit with ⟨mid, hpre2, hmid⟩ | ⟨mid, hmid, hpost2⟩
    · -- inside pass 2 (pre extends over all of pass 1)
      rw [hpre2, declsOf_append, List.append_eq_nil] at hpre
      have hg1L : (runPass false (initGlob rom0) src).1.labels L = INVALID := by
        rw [hl1, applyEvs_at, hpre.1]
        rfl
      rw [hmid, Consistent_append] at hc2
      have hhead := ((Consistent_cons _ _ _ _).1 hc2.2).1
      have hmidL : applyEvs (runPass false (initGlob rom0) src).1.labels mid L =
          INVALID := by
        rw [applyEvs_at, hpre.2, hg1L]
        rfl
      cases ev with
      | refOk lab addr =>
        have hlab : lab = L := href
        subst hlab
        have hfa : applyEvs (runPass false (initGlob rom0) src).1.labels mid lab = addr :=
          hhead.1
        rw [hmidL] at hfa
        exact absurd hfa.symm hhead.2
      | refUndefP1 lab => exact absurd hhead.2 (by decide)
      | errUndef lab =>
        have hlab : lab = L := href
        subst hlab
        exact Or.inr rfl
      | decl lab addr w => exact absurd href (by simp [isRef])
      | synErr => exact absurd href (by simp [isRef])
    · -- inside pass 1 (or exactly at the boundary)
      cases mid with
      | nil =>
        -- boundary: pre is all of pass 1 and ev heads pass 2
        rw [List.append_nil] at hmid
        have hpre1 : declsOf L (runPass false (initGlob rom0) src).2 = [] := by
          rw [hmid]
          exact hpre
        have hg1L : (runPass false (initGlob rom0) src).1.labels L = INVALID := by
          rw [hl1, applyEvs_at, hpre1]
          rfl
        rw [List.nil_append] at hpost2
        rw [← hpost2] at hc2
        have hhead := ((Consistent_cons _ _ _ _).1 hc2).1
        cases ev with
        | refOk lab addr =>
          have hlab : lab = L := href
          subst hlab
          have hfa : (runPass false (initGlob rom0) src).1.labels lab = addr := hhead.1
          rw [hg1L] at hfa
          exact absurd hfa.symm hhead.2
        | refUndefP1 lab => exact absurd hhead.2 (by decide)
        | errUndef lab =>
          have hlab : lab = L := href
          subst hlab
          exact Or.inr rfl
        | decl lab addr w => exact absurd href (by simp [isRef])
        | synErr => exact absurd href (by simp [isRef])
      | cons e mid2 =>
        rw [List.cons_append] at hpost2
        obtain ⟨he, -⟩ := List.cons.inj hpost2
        rw [← he] at hmid
        rw [hmid, Consistent_append] at hc1
        have hhead := ((Consistent_cons _ _ _ _).1 hc1.2).1
        have hpreL : applyEvs (initGlob rom0).labels pre L = INVALID := by
          rw [applyEvs_at, hpre]
          rfl
        cases ev with
        | refOk lab addr =>
          have hlab : lab = L := href
          subst hlab
          have hfa : applyEvs (initGlob rom0).labels pre lab = addr := hhead.1
          rw [hpreL] at hfa
          exact absurd hfa.symm hhead.2
        | refUndefP1 lab =>
          have hlab : lab = L := href
          subst hlab
          exact Or.inl rfl
        | errUndef lab => exact absurd hhead.2 (by decide)
        | decl lab addr w => exact absurd href (by simp [isRef])
        | synErr => exact absurd href (by simp [isRef])
  · intro sp g ls t L hps hhd hpar hL
    unfold step
    rw [hps]
    dsimp only
    rw [if_pos hhd]
    simp only [hpar]
    rw [if_neg (by simp [hL])]
    exact ⟨rfl, rfl, by simp [upd]⟩

/-- C8 witness: on `JMP $5` the combined log is
`[refUndefP1 5, errUndef 5]`; the pass-1 reference to the never-declared
label 5 finds UNDEFINED, and a concrete `$3` declaration step writes pc. -/
theorem C8_symbol_table_witness :
    ((initGlob (fun _ => 0)).labels 7 = INVALID) ∧
    (Ev.refUndefP1 5 = Ev.refUndefP1 5 ∨ Ev.refUndefP1 5 = Ev.errUndef 5) ∧
    ((step false (initGlob (fun _ => 0)) initLS ("$3".toList)).gOut.labels =
        upd (initGlob (fun _ => 0)).labels 3 0 ∧
      (step false (initGlob (fun _ => 0)) initLS ("$3".toList)).evsOut =
        [Ev.decl 3 0 (false && decide ((initGlob (fun _ => 0)).labels 3 ≠ 0))] ∧
      upd (initGlob (fun _ => 0)).labels 3 0 3 = 0) := by
  have h := C8_symbol_table (fun _ => 0) ["JMP $5".toList]
  exact ⟨h.1 7,
    h.2.2.1 5 [] (Ev.refUndefP1 5) [Ev.errUndef 5] rfl rfl rfl,
    h.2.2.2 false (initGlob (fun _ => 0)) initLS ("$3".toList) 3 rfl rfl rfl (by decide)⟩

end Ucasm

namespace Ucasm

theorem mnemLookup_some {t : List Char} {e : TokEntry} (h : mnemLookup t = some e) :
    e ∈ token ∧ 3 ≤ t.length ∧ t.take 3 = e.name := by
  have h1 := List.mem_of_find?_eq_some h
  have h2 := List.find?_some h
  simp only [mnemMatch, Bool.and_eq_true, decide_eq_true_eq] at h2
  exact ⟨h1, h2.1, h2.2⟩

theorem head_of_mnemLookup {t : List Char} {e : TokEntry} (h : mnemLookup t = some e) :
    t.head? ≠ some '$' ∧ t.head? ≠ some ';' := by
  obtain ⟨hm, hlen, htake⟩ := mnemLookup_some h
  have hname : e.name.head? ≠ some '$' ∧ e.name.head? ≠ some ';' := by
    fin_cases hm <;> decide
  have hh : t.head? = e.name.head? := by
    cases t with
    | nil => simp at hlen
    | cons a r =>
      rw [← htake]
      rfl
  rw [hh]
  exact hname

/-- C10: a line consisting of a single token that the instruction table
resolves to a non-directive opcode is accepted in either pass with no
diagnostic of any kind (the event list is empty and no counter moves): the
word at the current pc is set to the opcode in the high 4 bits over an
operand byte of 0 (`rom[pc] = opcode << 8`, never OR-ed with anything), and
the pc still advances by 1 (modulo 256) in the `print_listing` epilogue,
because `parser_state` has reached OPERAND and the opcode is below `ORG`. -/
theorem C10_bare_mnemonic (sp : Bool) (g : Glob) (t : List Char) (e : TokEntry)
    (h1 : mnemLookup t = some e) (h2 : e.code < ORG) :
    runLineToks sp g [t] =
      ({ g with rom := upd g.rom g.pc (e.code <<< 8), pc := (g.pc + 1) % 256 }, []) := by
  obtain ⟨hhd1, hhd2⟩ := head_of_mnemLookup h1
  have hstep : step sp g initLS t =
      StepRes.go { g with rom := upd g.rom g.pc (e.code <<< 8) }
        { initLS with nameFound := true, opcode := e.code, optype := e.ty, ps := PState.OPERAND }
        [] := by
    unfold step
    dsimp only [initLS]
    rw [if_neg hhd1]
    unfold stepMnem
    rw [if_neg hhd2, h1]
    dsimp only
    rw [if_pos h2]
  unfold runLineToks
  simp only [loop, hstep]
  rw [if_neg (by decide), if_pos ⟨by decide, h2⟩]
  rfl

/-- C10 witness: the bare line `ANA` at the initial state. -/
theorem C10_bare_mnemonic_witness :
    runLineToks false (initGlob (fun _ => 0)) ["ANA".toList] =
      ({ initGlob (fun _ => 0) with
          rom := upd (initGlob (fun _ => 0)).rom (initGlob (fun _ => 0)).pc (0x0 <<< 8),
          pc := ((initGlob (fun _ => 0)).pc + 1) % 256 }, []) :=
  C10_bare_mnemonic false (initGlob (fun _ => 0)) ("ANA".toList)
    ⟨"ANA".toList, 0x0, REG⟩ rfl (by decide)

/-- C6 amended: mnemonic lookup is a byte-exact 3-byte prefix match.
A token succeeds exactly when its first three bytes equal some table entry's
3-character spelling (so it must be at least 3 characters long, trailing
characters are ignored, and no case folding happens); lookup fails exactly
when no entry matches those three bytes, and a pass-1 lookup failure in the
mnemonic position records a syntax error and abandons the line. -/
theorem C6_amended_lookup :
    (∀ (t : List Char) (e : TokEntry), mnemLookup t = some e →
      e ∈ token ∧ 3 ≤ t.length ∧ t.take 3 = e.name) ∧
    (∀ t : List Char, mnemLookup t = none ↔
      ∀ e ∈ token, ¬(3 ≤ t.length ∧ t.take 3 = e.name)) ∧
    (∀ (g : Glob) (ls : LSt) (t : List Char) (ts : List (List Char)),
      (ls.ps = PState.MNEMONIC ∨ (ls.ps = PState.LABEL ∧ t.head? ≠ some '$')) →
      t.head? ≠ some ';' → mnemLookup t = none →
      loop false (t :: ts) g ls = ⟨{ g with syn := g.syn + 1 }, ls, [Ev.synErr], true⟩) := by
  refine ⟨fun t e h => mnemLookup_some h, ?_, ?_⟩
  · intro t
    unfold mnemLookup
    rw [List.find?_eq_none]
    constructor
    · intro h e he
      have := h e he
      simpa [mnemMatch] using this
    · intro h e he
      simpa [mnemMatch] using h e he
  · intro g ls t ts hp hsemi hlk
    have hstep : step false g ls t = .err { g with syn := g.syn + 1 } [.synErr] := by
      rcases hp with hms | ⟨hlab, hdol⟩
      · unfold step
        rw [hms]
        dsimp only
        unfold stepMnem
        rw [if_neg hsemi, hlk]
        rfl
      · unfold step
        rw [hlab]
        dsimp only
        rw [if_neg hdol]
        unfold stepMnem
        rw [if_neg hsemi, hlk]
        rfl
    simp only [loop, hstep]

end Ucasm

namespace Ucasm

/-- C6 amended witness: `ANA` is a table entry; the unknown token `FOO` in
the mnemonic position records a pass-1 syntax error and abandons the line. -/
theorem C6_amended_lookup_witness :
    ((⟨"ANA".toList, 0x0, REG⟩ : TokEntry) ∈ token ∧
      3 ≤ ("ANA".toList).length ∧ ("ANA".toList).take 3 = "ANA".toList) ∧
    loop false ["FOO".toList] (initGlob (fun _ => 0)) initLS =
      ⟨{ initGlob (fun _ => 0) with syn := (initGlob (fun _ => 0)).syn + 1 }, initLS,
        [Ev.synErr], true⟩ :=
  ⟨C6_amended_lookup.1 ("ANA".toList) ⟨"ANA".toList, 0x0, REG⟩ rfl,
   C6_amended_lookup.2.2 (initGlob (fun _ => 0)) initLS ("FOO".toList) []
     (Or.inr ⟨rfl, by decide⟩) (by decide) rfl⟩

theorem declFlags_cons (L : Nat) (e : Ev) (r : List Ev) :
    declFlags L (e :: r) =
      (match e with
        | .decl lab _ w => if lab = L then w :: declFlags L r else declFlags L r
        | _ => declFlags L r) := by
  cases e with
  | decl lab addr w =>
    by_cases h : lab = L <;> simp [declFlags, List.filterMap_cons, h]
  | refOk lab addr => simp [declFlags, List.filterMap_cons]
  | refUndefP1 lab => simp [declFlags, List.filterMap_cons]
  | errUndef lab => simp [declFlags, List.filterMap_cons]
  | synErr => simp [declFlags, List.filterMap_cons]

/-- In a consistent pass-2 event list, the duplicate-warning flags of one
label's declarations are forced: each declaration warns exactly when the
address stored just before it (the incoming table value for the first,
the previous declaration's address thereafter) differs from the pc written. -/
theorem declFlags_eq (L : Nat) : ∀ (evs : List Ev) (f : Nat → Nat),
    Consistent true f evs → declFlags L evs = expectedWarns (f L) (declsOf L evs) := by
  intro evs
  induction evs with
  | nil => intro f _; rfl
  | cons e r ih =>
    intro f h
    obtain ⟨h1, h2⟩ := (Consistent_cons _ _ _ _).1 h
    cases e with
    | decl lab addr w =>
      by_cases hl : lab = L
      · subst hl
        have h1x : w = (true && decide (f lab ≠ addr)) := h1
        have hw : w = decide (f lab ≠ addr) := by simpa using h1x
        have hr := ih (applyEv f (Ev.decl lab addr w)) h2
        have hupd : (applyEv f (Ev.decl lab addr w)) lab = addr := by
          simp [applyEv, upd]
        rw [declFlags_cons, declsOf_cons]
        simp only [if_pos rfl]
        rw [hw, hr, hupd]
        rfl
      · have hr := ih (applyEv f (Ev.decl lab addr w)) h2
        have hupd : (applyEv f (Ev.decl lab addr w)) L = f L := by
          simp only [applyEv, upd]
          rw [if_neg (fun hh => hl hh.symm)]
        rw [declFlags_cons, declsOf_cons]
        simp only [if_neg hl]
        rw [hr, hupd]
    | refOk lab addr =>
      rw [declFlags_cons, declsOf_cons]
      exact ih f h2
    | refUndefP1 lab =>
      rw [declFlags_cons, declsOf_cons]
      exact ih f h2
    | errUndef lab =>
      rw [declFlags_cons, declsOf_cons]
      exact ih f h2
    | synErr =>
      rw [declFlags_cons, declsOf_cons]
      exact ih f h2

theorem expectedWarns_count : ∀ (l : List Nat) (s : Nat),
    List.Chain' (fun a b => a ≠ b) (s :: l) →
    (expectedWarns s l).count true = l.length := by
  intro l
  induction l with
  | nil => intro s _; rfl
  | cons a r ih =>
    intro s h
    have h1 : s ≠ a := (List.chain'_cons.1 h).1
    have h2 := (List.chain'_cons.1 h).2
    simp [expectedWarns, List.count_cons, ih a h2, h1]

theorem chain_of_pairwise_last {l : List Nat} {s : Nat}
    (hp : l.Pairwise (fun a b => a ≠ b)) (hlen : 2 ≤ l.length)
    (hs : s = lastD l INVALID) : List.Chain' (fun a b => a ≠ b) (s :: l) := by
  cases l with
  | nil => simp at hlen
  | cons a r =>
    have hch : List.Chain' (fun a b => a ≠ b) (a :: r) := hp.chain'
    refine List.chain'_cons.2 ⟨?_, hch⟩
    cases r with
    | nil => simp at hlen
    | cons b r2 =>
      have hmem : lastD (b :: r2) a ∈ (b :: r2) := lastD_mem _ _ (by simp)
      have hane : a ≠ lastD (b :: r2) a := (List.pairwise_cons.1 hp).1 _ hmem
      rw [hs, lastD_cons]
      exact fun hh => hane hh.symm

/-- C3 amended: for a label declared N > 1 times at pairwise-distinct
addresses, pass 2 emits exactly N duplicate warnings for it — one per
declaration, including the last — not N - 1: each pass-2 declaration warns
exactly when the stored address differs from the current pc, and then
OVERWRITES the stored address with the current pc (it is not left
unaltered).  Consequently an operand reference resolves to the address of
the nearest pass-2 declaration preceding it — the pass-1 final (lexically
last) address only until the first pass-2 declaration is re-encountered —
so a reference between two declarations uses the earlier declaration's
address, not the last one's. -/
theorem C3_amended_warnings (rom0 : Nat → Nat) (src : List (List Char)) (L : Nat)
    (_hsyn : (runPass false (initGlob rom0) src).1.syn = 0)
    (hN : 2 ≤ (declsOf L (runPass true (runPass false (initGlob rom0) src).1 src).2).length)
    (hdist : (declsOf L (runPass true (runPass false (initGlob rom0) src).1 src).2).Pairwise
      (fun a b => a ≠ b))
    (hlast : (runPass false (initGlob rom0) src).1.labels L =
      lastD (declsOf L (runPass true (runPass false (initGlob rom0) src).1 src).2) INVALID) :
    ((declFlags L (runPass true (runPass false (initGlob rom0) src).1 src).2).count true =
      (declsOf L (runPass true (runPass false (initGlob rom0) src).1 src).2).length ∧
    (∀ u ev v,
      (runPass true (runPass false (initGlob rom0) src).1 src).2 = u ++ ev :: v →
      isRef L ev →
      ev = Ev.refOk L
        (lastD (declsOf L u) ((runPass false (initGlob rom0) src).1.labels L))) ∧
    (∀ u a w v,
      (runPass true (runPass false (initGlob rom0) src).1 src).2 =
        u ++ Ev.decl L a w :: v →
      applyEvs (runPass false (initGlob rom0) src).1.labels (u ++ [Ev.decl L a w]) L = a) ∧
    (runPass true (runPass false (initGlob rom0) src).1 src).1.warn =
      (runPass false (initGlob rom0) src).1.warn +
        warnCount (runPass true (runPass false (initGlob rom0) src).1 src).2) := by
  obtain ⟨hl2, hc2, hw2, -, -, hd2⟩ :=
    runPass_ok true (runPass false (initGlob rom0) src).1 src
  refine ⟨?_, ?_, ?_, hw2⟩
  · rw [declFlags_eq L _ _ hc2, hlast]
    exact expectedWarns_count _ _ (chain_of_pairwise_last hdist hN rfl)
  · intro u ev v hsplit href
    have hne : lastD (declsOf L u) ((runPass false (initGlob rom0) src).1.labels L) ≠
        INVALID := by
      have hlt : lastD (declsOf L u) ((runPass false (initGlob rom0) src).1.labels L)
          < 256 := by
        rcases List.eq_nil_or_concat (declsOf L u) with hu | ⟨l2, b, hb⟩
        · rw [hu]
          have hmem : lastD (declsOf L (runPass true (runPass false (initGlob rom0) src).1
              src).2) INVALID ∈
              declsOf L (runPass true (runPass false (initGlob rom0) src).1 src).2 :=
            lastD_mem _ _ (by intro hh; rw [hh] at hN; simp at hN)
          rcases declsOf_mem hmem with ⟨w, hw⟩
          have := hd2 L _ w hw
          simp only [lastD]
          rw [hlast]
          exact this
        · have hmem2 : lastD (declsOf L u)
              ((runPass false (initGlob rom0) src).1.labels L) ∈ declsOf L u := by
            apply lastD_mem
            rw [hb]
            simp [List.concat_eq_append]
          have hmem3 : lastD (declsOf L u)
              ((runPass false (initGlob rom0) src).1.labels L) ∈
              declsOf L (runPass true (runPass false (initGlob rom0) src).1 src).2 := by
            rw [hsplit, declsOf_append]
            exact List.mem_append_left _ hmem2
          rcases declsOf_mem hmem3 with ⟨w, hw⟩
          exact hd2 L _ w hw
      unfold INVALID
      omega
    rw [hsplit, Consistent_append] at hc2
    have hhead := ((Consistent_cons _ _ _ _).1 hc2.2).1
    have hval : applyEvs (runPass false (initGlob rom0) src).1.labels u L =
        lastD (declsOf L u) ((runPass false (initGlob rom0) src).1.labels L) :=
      applyEvs_at L u _
    cases ev with
    | refOk lab addr =>
      have hlab : lab = L := href
      subst hlab
      have hfa : applyEvs (runPass false (initGlob rom0) src).1.labels u lab = addr :=
        hhead.1
      rw [hval] at hfa
      rw [hfa]
    | refUndefP1 lab => exact absurd hhead.2 (by decide)
    | errUndef lab =>
      have hlab : lab = L := href
      subst hlab
      have hfa := hhead.1
      rw [hval] at hfa
      exact absurd hfa hne
    | decl lab addr w => exact absurd href (by simp [isRef])
    | synErr => exact absurd href (by simp [isRef])
  · intro u a w v _hsplit
    rw [applyEvs_append]
    simp [applyEvs, applyEv, upd]

end Ucasm

namespace Ucasm

theorem span_eq_of (p : Char → Bool) : ∀ (a b : List Char),
    (∀ c ∈ a, p c = true) → (∀ h, b.head? = some h → p h = false) →
    (a ++ b).takeWhile p = a ∧ (a ++ b).dropWhile p = b := by
  intro a
  induction a with
  | nil =>
    intro b _ hb
    cases b with
    | nil => exact ⟨rfl, rfl⟩
    | cons h tb =>
      have hh := hb h rfl
      constructor
      · simp [List.takeWhile_cons, hh]
      · simp [List.dropWhile_cons, hh]
  | cons c a2 ih =>
    intro b ha hb
    have hc : p c = true := ha c (by simp)
    have h2 := ih b (fun x hx => ha x (by simp [hx])) hb
    constructor
    · simp [List.takeWhile_cons, hc, h2.1]
    · simp [List.dropWhile_cons, hc, h2.2]

theorem mem_takeWhile (p : Char → Bool) : ∀ (l : List Char) (c : Char),
    c ∈ l.takeWhile p → p c = true := by
  intro l
  induction l with
  | nil => intro c h; simp at h
  | cons a r ih =>
    intro c h
    rw [List.takeWhile_cons] at h
    by_cases ha : p a = true
    · rw [if_pos ha] at h
      rcases List.mem_cons.1 h with h | h
      · rw [h]; exact ha
      · exact ih c h
    · rw [if_neg ha] at h
      simp at h

theorem dropWhile_head_false (p : Char → Bool) : ∀ (s : List Char) (c : Char)
    (r : List Char), s.dropWhile p = c :: r → p c = false := by
  intro s
  induction s with
  | nil => intro c r h; simp at h
  | cons a s2 ih =>
    intro c r h
    rw [List.dropWhile_cons] at h
    by_cases ha : p a = true
    · rw [if_pos ha] at h
      exact ih c r h
    · rw [if_neg ha] at h
      obtain ⟨h1, -⟩ := List.cons.inj h
      rw [← h1]
      simpa using ha

theorem isDigitB10 (c : Char) :
    isDigitB 10 c = true ↔ (48 ≤ c.toNat ∧ c.toNat ≤ 57) := by
  unfold isDigitB digitVal
  by_cases h : 48 ≤ c.toNat ∧ c.toNat ≤ 57
  · rw [if_pos h, if_pos (by omega)]
    simp [h]
  · rw [if_neg h, if_neg (by simp), if_neg (by simp)]
    simp [h]

theorem digit_not_space {c : Char} (h : isDigitB 10 c = true) : isSpaceC c = false := by
  rw [isDigitB10] at h
  simp only [isSpaceC, Bool.or_eq_false_iff, decide_eq_false_iff_not]
  omega

theorem digit_ne_minus {c : Char} (h : isDigitB 10 c = true) : c ≠ '-' := by
  rw [isDigitB10] at h
  intro hc
  rw [hc] at h
  simp at h

theorem digit_ne_plus {c : Char} (h : isDigitB 10 c = true) : c ≠ '+' := by
  rw [isDigitB10] at h
  intro hc
  rw [hc] at h
  simp at h

theorem digitVal10_le {c : Char} (h : isDigitB 10 c = true) :
    (digitVal 10 c).getD 0 ≤ 9 := by
  have hb := (isDigitB10 c).1 h
  unfold digitVal
  rw [if_pos hb, if_pos (by omega)]
  simp
  omega

theorem digitsToNat_fold_lt : ∀ (ds : List Char) (acc : Nat),
    (∀ c ∈ ds, isDigitB 10 c = true) →
    List.foldl (fun a c => a * 10 + ((digitVal 10 c).getD 0)) acc ds <
      (acc + 1) * 10 ^ ds.length := by
  intro ds
  induction ds with
  | nil => intro acc _; simp
  | cons c r ih =>
    intro acc h
    have hd : (digitVal 10 c).getD 0 ≤ 9 := digitVal10_le (h c (by simp))
    have h2 := ih (acc * 10 + (digitVal 10 c).getD 0) (fun x hx => h x (by simp [hx]))
    simp only [List.foldl_cons, List.length_cons]
    refine lt_of_lt_of_le h2 ?_
    have h3 : acc * 10 + (digitVal 10 c).getD 0 + 1 ≤ (acc + 1) * 10 := by omega
    calc (acc * 10 + (digitVal 10 c).getD 0 + 1) * 10 ^ r.length
        ≤ ((acc + 1) * 10) * 10 ^ r.length := Nat.mul_le_mul_right _ h3
      _ = (acc + 1) * 10 ^ (r.length + 1) := by ring

theorem digitsToNat_lt (ds : List Char) (h : ∀ c ∈ ds, isDigitB 10 c = true) :
    digitsToNat 10 ds < 10 ^ ds.length := by
  have := digitsToNat_fold_lt ds 0 h
  simpa [digitsToNat] using this

/-- `strtoul` unfolded on the whitespace-stripped remainder (definitional). -/
theorem strtoul_eq (base : Nat) (s : List Char) :
    strtoul base s =
      (match s.dropWhile isSpaceC with
        | '-' :: r =>
          strtoulCore base s true (s.length - (s.dropWhile isSpaceC).length + 1) r
        | '+' :: r =>
          strtoulCore base s false (s.length - (s.dropWhile isSpaceC).length + 1) r
        | _ =>
          strtoulCore base s false (s.length - (s.dropWhile isSpaceC).length)
            (s.dropWhile isSpaceC)) := by
  unfold strtoul
  rfl

end Ucasm

namespace Ucasm

theorem strtoulCore_nodigit (base : Nat) (s : List Char) (neg : Bool) (pre : Nat)
    (body : List Char) (h : body.takeWhile (fun c => isDigitB base c) = []) :
    strtoulCore base s neg pre body = ⟨0, 0, s⟩ := by
  unfold strtoulCore
  simp [h]

theorem strtoulCore10_digits (s : List Char) (neg : Bool) (pre : Nat) (ds : List Char)
    (hds : ds ≠ []) (hdig : ∀ c ∈ ds, isDigitB 10 c = true) (hlen : ds.length ≤ 4) :
    strtoulCore 10 s neg pre ds =
      ⟨if neg then (2 ^ 64 - digitsToNat 10 ds) % 2 ^ 64 else digitsToNat 10 ds,
       pre + ds.length, []⟩ := by
  have hv : digitsToNat 10 ds < 10000 := by
    refine lt_of_lt_of_le (digitsToNat_lt ds hdig) ?_
    calc 10 ^ ds.length ≤ 10 ^ 4 := Nat.pow_le_pow_right (by norm_num) hlen
      _ = 10000 := by norm_num
  have hdtake : ds.takeWhile (fun c => isDigitB 10 c) = ds := by
    have := (span_eq_of _ ds [] hdig (by intro h0 hh0; simp at hh0)).1
    simpa using this
  have hddrop : ds.dropWhile (fun c => isDigitB 10 c) = [] := by
    have := (span_eq_of _ ds [] hdig (by intro h0 hh0; simp at hh0)).2
    simpa using this
  unfold strtoulCore
  simp only [hdtake, hddrop]
  rw [if_neg hds, if_neg (by unfold ULONG_MAX; omega)]

/-- Backward half of the C9 characterization: every token the amended
grammar accepts is accepted by `parse_label` with that value. -/
theorem parse10_of_amended (s : List Char) (n : Nat) (h : amendedLabelVal s n) :
    parse_label s 10 4 9999 = n := by
  rcases h with ⟨hs, hn⟩ | ⟨ws, sg, ds, hsplit, hws, hsg, hds, hdig, hlen, hneg, hn⟩
  · subst hs
    subst hn
    rfl
  · have hhead : ∀ h0, (sg ++ ds).head? = some h0 → isSpaceC h0 = false := by
      intro h0 hh0
      rcases hsg with h1 | h1 | h1
      · subst h1
        simp only [List.nil_append] at hh0
        cases ds with
        | nil => simp at hh0
        | cons d r =>
          have hd := hdig d (by simp)
          have hh : d = h0 := by simpa using hh0
          rw [← hh]
          exact digit_not_space hd
      · subst h1
        have hh : '+' = h0 := by simpa using hh0
        rw [← hh]
        rfl
      · subst h1
        have hh : '-' = h0 := by simpa using hh0
        rw [← hh]
        rfl
    have hdrop : s.dropWhile isSpaceC = sg ++ ds := by
      rw [hsplit, List.append_assoc]
      exact (span_eq_of isSpaceC ws (sg ++ ds) hws hhead).2
    have hslen : s.length = ws.length + sg.length + ds.length := by
      rw [hsplit]
      simp [List.length_append]
      omega
    have hdslen : ds.length ≤ 4 := by
      rw [hslen] at hlen
      omega
    have hvlt : digitsToNat 10 ds < 10000 := by
      refine lt_of_lt_of_le (digitsToNat_lt ds hdig) ?_
      calc 10 ^ ds.length ≤ 10 ^ 4 := Nat.pow_le_pow_right (by norm_num) hdslen
        _ = 10000 := by norm_num
    have hv32 : digitsToNat 10 ds % 2 ^ 32 = digitsToNat 10 ds :=
      Nat.mod_eq_of_lt (by omega)
    rcases hsg with h1 | h1 | h1
    · -- no sign
      subst h1
      simp only [List.nil_append] at hdrop
      simp only [List.length_nil] at hslen
      cases hdc : ds with
      | nil => exact absurd hdc hds
      | cons d dr =>
        have hddig : isDigitB 10 d = true := hdig d (by rw [hdc]; simp)
        unfold parse_label
        rw [strtoul_eq, hdrop, hdc]
        split
        · rename_i r heq
          obtain ⟨h2, -⟩ := List.cons.inj heq
          exact absurd h2 (digit_ne_minus hddig)
        · rename_i r heq
          obtain ⟨h2, -⟩ := List.cons.inj heq
          exact absurd h2 (digit_ne_plus hddig)
        · rw [← hdc]
          rw [strtoulCore10_digits s false _ ds hds hdig hdslen]
          simp only [if_neg (by simp : ¬(false = true))]
          rw [if_pos]
          · rw [hv32, hn]
            simp
          · refine ⟨by rw [hv32]; omega, ?_, trivial⟩
            omega
    · -- plus sign
      subst h1
      have hdrop2 : s.dropWhile isSpaceC = '+' :: ds := by
        rw [hdrop]
        rfl
      simp only [List.length_cons, List.length_singleton] at hslen
      unfold parse_label
      rw [strtoul_eq, hdrop2]
      rw [show (match ('+' :: ds : List Char) with
            | '-' :: r =>
              strtoulCore 10 s true (s.length - ('+' :: ds : List Char).length + 1) r
            | '+' :: r =>
              strtoulCore 10 s false (s.length - ('+' :: ds : List Char).length + 1) r
            | _ =>
              strtoulCore 10 s false (s.length - ('+' :: ds : List Char).length)
                ('+' :: ds)) =
          strtoulCore 10 s false (s.length - ('+' :: ds : List Char).length + 1) ds
          from rfl]
      rw [strtoulCore10_digits s false _ ds hds hdig hdslen]
      simp only [if_neg (by simp : ¬(false = true))]
      rw [if_pos]
      · rw [hv32, hn]
        simp
      · refine ⟨by rw [hv32]; omega, ?_, trivial⟩
        simp only [List.length_cons]
        omega
    · -- minus sign: only the all-zero numeral is accepted
      subst h1
      have hzero : digitsToNat 10 ds = 0 := hneg rfl
      have hdrop2 : s.dropWhile isSpaceC = '-' :: ds := by
        rw [hdrop]
        rfl
      simp only [List.length_cons, List.length_singleton] at hslen
      unfold parse_label
      rw [strtoul_eq, hdrop2]
      rw [show (match ('-' :: ds : List Char) with
            | '-' :: r =>
              strtoulCore 10 s true (s.length - ('-' :: ds : List Char).length + 1) r
            | '+' :: r =>
              strtoulCore 10 s false (s.length - ('-' :: ds : List Char).length + 1) r
            | _ =>
              strtoulCore 10 s false (s.length - ('-' :: ds : List Char).length)
                ('-' :: ds)) =
          strtoulCore 10 s true (s.length - ('-' :: ds : List Char).length + 1) ds
          from rfl]
      rw [strtoulCore10_digits s true _ ds hds hdig hdslen]
      rw [hzero]
      have hmod : ((2 ^ 64 - 0) % 2 ^ 64 : Nat) = 0 := by norm_num
      simp only [if_pos rfl, hmod]
      rw [if_pos]
      · rw [hn]
        simp
      · refine ⟨by norm_num, ?_, trivial⟩
        simp only [List.length_cons]
        omega

end Ucasm

namespace Ucasm

theorem strtoulCore_pos (base : Nat) (s : List Char) (neg : Bool) (pre : Nat)
    (body : List Char) (he : body.takeWhile (fun c => isDigitB base c) ≠ []) :
    strtoulCore base s neg pre body =
      ⟨(let v := digitsToNat base (body.takeWhile (fun c => isDigitB base c))
        if ULONG_MAX < v then ULONG_MAX
        else if neg then (2 ^ 64 - v) % 2 ^ 64 else v),
       pre + (body.takeWhile (fun c => isDigitB base c)).length,
       body.dropWhile (fun c => isDigitB base c)⟩ := by
  unfold strtoulCore
  rw [if_neg he]

/-- Forward half of the C9 characterization: every token `parse_label`
accepts is of the amended shape, with the parsed value. -/
theorem amended_of_parse10 (s : List Char) (h : parse_label s 10 4 9999 ≠ INVALID) :
    amendedLabelVal s (parse_label s 10 4 9999) := by
  by_cases hcond : ((strtoul 10 s).val % 2 ^ 32 ≤ 9999 ∧
      (strtoul 10 s).consumed ≤ 4 ∧ (strtoul 10 s).rest = [])
  case neg =>
    have hinv : parse_label s 10 4 9999 = INVALID := by
      unfold parse_label
      rw [if_neg hcond]
    exact absurd hinv h
  case pos =>
  have hp : parse_label s 10 4 9999 = (strtoul 10 s).val % 2 ^ 32 := by
    unfold parse_label
    rw [if_pos hcond]
  rw [hp]
  cases hA : s.dropWhile isSpaceC with
  | nil =>
    have hst : strtoul 10 s = ⟨0, 0, s⟩ := by
      rw [strtoul_eq, hA]
      exact strtoulCore_nodigit 10 s false _ [] rfl
    rw [hst] at hcond
    rw [hst]
    exact Or.inl ⟨hcond.2.2, by norm_num⟩
  | cons c r =>
    have hs : s.takeWhile isSpaceC ++ (c :: r) = s := by
      rw [← hA]
      exact List.takeWhile_append_dropWhile isSpaceC s
    have hws : ∀ x ∈ s.takeWhile isSpaceC, isSpaceC x = true :=
      fun x hx => mem_takeWhile _ _ _ hx
    have hslen : s.length = (s.takeWhile isSpaceC).length + r.length + 1 := by
      have h0 := congrArg List.length hs
      simp [List.length_append] at h0
      omega
    by_cases hm : c = '-'
    · subst hm
      have hst1 : strtoul 10 s =
          strtoulCore 10 s true (s.length - (('-' :: r : List Char)).length + 1) r := by
        rw [strtoul_eq, hA]
        rfl
      by_cases he : r.takeWhile (fun x => isDigitB 10 x) = []
      · have hst2 := strtoulCore_nodigit 10 s true
          (s.length - (('-' :: r : List Char)).length + 1) r he
        rw [hst1, hst2] at hcond
        have : s = [] := hcond.2.2
        rw [this] at hs
        simp at hs
      · have hdrop0 : r.dropWhile (fun x => isDigitB 10 x) = [] := by
          have := (hst1 ▸ hcond.2.2 :
            (strtoulCore 10 s true (s.length - (('-' :: r : List Char)).length + 1)
              r).rest = [])
          rw [strtoulCore_pos 10 s true _ r he] at this
          exact this
        have hrall : r.takeWhile (fun x => isDigitB 10 x) = r := by
          have h0 := List.takeWhile_append_dropWhile (fun x => isDigitB 10 x) r
          rw [hdrop0, List.append_nil] at h0
          exact h0
        have hrne : r ≠ [] := by
          intro hh
          rw [hh] at he
          exact he rfl
        have hdigr : ∀ x ∈ r, isDigitB 10 x = true := by
          intro x hx
          rw [← hrall] at hx
          exact mem_takeWhile _ _ _ hx
        have hcons4 : s.length - (('-' :: r : List Char)).length + 1 + r.length ≤ 4 := by
          have := (hst1 ▸ hcond.2.1 :
            (strtoulCore 10 s true (s.length - (('-' :: r : List Char)).length + 1)
              r).consumed ≤ 4)
          rw [strtoulCore_pos 10 s true _ r he, hrall] at this
          exact this
        have hr4 : r.length ≤ 4 := by
          simp only [List.length_cons] at hcons4
          omega
        have hcore := strtoulCore10_digits s true
          (s.length - (('-' :: r : List Char)).length + 1) r hrne hdigr hr4
        have hvlt : digitsToNat 10 r < 10000 := by
          refine lt_of_lt_of_le (digitsToNat_lt r hdigr) ?_
          calc 10 ^ r.length ≤ 10 ^ 4 := Nat.pow_le_pow_right (by norm_num) hr4
            _ = 10000 := by norm_num
        by_cases hz : digitsToNat 10 r = 0
        · rw [hst1, hcore]
          refine Or.inr ⟨s.takeWhile isSpaceC, ['-'], r, ?_, hws,
            Or.inr (Or.inr rfl), hrne, hdigr, ?_, fun _ => hz, ?_⟩
          · rw [List.append_assoc]
            exact hs.symm
          · simp only [List.length_cons] at hcons4
            omega
          · rw [hz]
            norm_num
        · exfalso
          rw [hst1, hcore] at hcond
          have h1 := hcond.1
          have hv1 : 1 ≤ digitsToNat 10 r := Nat.one_le_iff_ne_zero.2 hz
          have hbig : ((2 ^ 64 - digitsToNat 10 r) % 2 ^ 64) % 2 ^ 32 =
              2 ^ 32 - digitsToNat 10 r := by
            have e1 : (2 : Nat) ^ 64 = 18446744073709551616 := by norm_num
            have e2 : (2 : Nat) ^ 32 = 4294967296 := by norm_num
            rw [e1, e2]
            omega
          rw [if_pos rfl] at h1
          rw [hbig] at h1
          have e2 : (2 : Nat) ^ 32 = 4294967296 := by norm_num
          omega
    · by_cases hp2 : c = '+'
      · subst hp2
        have hst1 : strtoul 10 s =
            strtoulCore 10 s false (s.length - (('+' :: r : List Char)).length + 1) r := by
          rw [strtoul_eq, hA]
          rfl
        by_cases he : r.takeWhile (fun x => isDigitB 10 x) = []
        · have hst2 := strtoulCore_nodigit 10 s false
            (s.length - (('+' :: r : List Char)).length + 1) r he
          rw [hst1, hst2] at hcond
          have : s = [] := hcond.2.2
          rw [this] at hs
          simp at hs
        · have hdrop0 : r.dropWhile (fun x => isDigitB 10 x) = [] := by
            have := (hst1 ▸ hcond.2.2 :
              (strtoulCore 10 s false (s.length - (('+' :: r : List Char)).length + 1)
                r).rest = [])
            rw [strtoulCore_pos 10 s false _ r he] at this
            exact this
          have hrall : r.takeWhile (fun x => isDigitB 10 x) = r := by
            have h0 := List.takeWhile_append_dropWhile (fun x => isDigitB 10 x) r
            rw [hdrop0, List.append_nil] at h0
            exact h0
          have hrne : r ≠ [] := by
            intro hh
            rw [hh] at he
            exact he rfl
          have hdigr : ∀ x ∈ r, isDigitB 10 x = true := by
            intro x hx
            rw [← hrall] at hx
            exact mem_takeWhile _ _ _ hx
          have hcons4 : s.length - (('+' :: r : List Char)).length + 1 + r.length ≤ 4 := by
            have := (hst1 ▸ hcond.2.1 :
              (strtoulCore 10 s false (s.length - (('+' :: r : List Char)).length + 1)
                r).consumed ≤ 4)
            rw [strtoulCore_pos 10 s false _ r he, hrall] at this
            exact this
          have hr4 : r.length ≤ 4 := by
            simp only [List.length_cons] at hcons4
            omega
          have hcore := strtoulCore10_digits s false
            (s.length - (('+' :: r : List Char)).length + 1) r hrne hdigr hr4
          have hvlt : digitsToNat 10 r < 10000 := by
            refine lt_of_lt_of_le (digitsToNat_lt r hdigr) ?_
            calc 10 ^ r.length ≤ 10 ^ 4 := Nat.pow_le_pow_right (by norm_num) hr4
              _ = 10000 := by norm_num
        
          rw [hst1, hcore]
          refine Or.inr ⟨s.takeWhile isSpaceC, ['+'], r, ?_, hws,
            Or.inr (Or.inl rfl), hrne, hdigr, ?_, by intro hh; simp at hh, ?_⟩
          · rw [List.append_assoc]
            exact hs.symm
          · simp only [List.length_cons] at hcons4
            omega
          · simp only [if_neg (by simp : ¬(false = true))]
            rw [Nat.mod_eq_of_lt (by omega)]
            simp
      · have hst1 : strtoul 10 s =
            strtoulCore 10 s false (s.length - ((c :: r : List Char)).length) (c :: r) := by
          rw [strtoul_eq, hA]
          split
          · rename_i r2 heq
            obtain ⟨h2, -⟩ := List.cons.inj heq
            exact absurd h2 hm
          · rename_i r2 heq
            obtain ⟨h2, -⟩ := List.cons.inj heq
            exact absurd h2 hp2
          · rfl
        by_cases he : (c :: r).takeWhile (fun x => isDigitB 10 x) = []
        · have hst2 := strtoulCore_nodigit 10 s false
            (s.length - ((c :: r : List Char)).length) (c :: r) he
          rw [hst1, hst2] at hcond
          have : s = [] := hcond.2.2
          rw [this] at hs
          simp at hs
        · have hdrop0 : (c :: r).dropWhile (fun x => isDigitB 10 x) = [] := by
            have := (hst1 ▸ hcond.2.2 :
              (strtoulCore 10 s false (s.length - ((c :: r : List Char)).length)
                (c :: r)).rest = [])
            rw [strtoulCore_pos 10 s false _ (c :: r) he] at this
            exact this
          have hrall : (c :: r).takeWhile (fun x => isDigitB 10 x) = c :: r := by
            have h0 := List.takeWhile_append_dropWhile (fun x => isDigitB 10 x) (c :: r)
            rw [hdrop0, List.append_nil] at h0
            exact h0
          have hdigr : ∀ x ∈ (c :: r), isDigitB 10 x = true := by
            intro x hx
            rw [← hrall] at hx
            exact mem_takeWhile _ _ _ hx
          have hcons4 : s.length - ((c :: r : List Char)).length + (c :: r).length ≤ 4 := by
            have := (hst1 ▸ hcond.2.1 :
              (strtoulCore 10 s false (s.length - ((c :: r : List Char)).length)
                (c :: r)).consumed ≤ 4)
            rw [strtoulCore_pos 10 s false _ (c :: r) he, hrall] at this
            exact this
          have hr4 : (c :: r).length ≤ 4 := by
            omega
          have hcore := strtoulCore10_digits s false
            (s.length - ((c :: r : List Char)).length) (c :: r) (by simp) hdigr hr4
          have hvlt : digitsToNat 10 (c :: r) < 10000 := by
            refine lt_of_lt_of_le (digitsToNat_lt (c :: r) hdigr) ?_
            calc 10 ^ (c :: r).length ≤ 10 ^ 4 := Nat.pow_le_pow_right (by norm_num) hr4
              _ = 10000 := by norm_num
          rw [hst1, hcore]
          refine Or.inr ⟨s.takeWhile isSpaceC, [], c :: r, ?_, hws,
            Or.inl rfl, by simp, hdigr, ?_, by intro hh; simp at hh, ?_⟩
          · rw [List.append_nil]
            exact hs.symm
          · simp only [List.length_cons] at hcons4
            omega
          · simp only [if_neg (by simp : ¬(false = true))]
            rw [Nat.mod_eq_of_lt (by omega)]
            simp

end Ucasm

namespace Ucasm

/-- C3 amended witness: scenario `$1 ADI 00` / `JMP $1` / `$1 ADI 01`
(label 1 declared at the distinct addresses 0 and 2): both declarations
warn (2 warnings, the length of the declaration list), and the reference
between them resolves to the first declaration's address 0. -/
theorem C3_amended_warnings_witness :
    ((declFlags 1 (runPass true (runPass false (initGlob (fun _ => 0))
        ["$1 ADI 00".toList, "JMP $1".toList, "$1 ADI 01".toList]).1
        ["$1 ADI 00".toList, "JMP $1".toList, "$1 ADI 01".toList]).2).count true =
      (declsOf 1 (runPass true (runPass false (initGlob (fun _ => 0))
        ["$1 ADI 00".toList, "JMP $1".toList, "$1 ADI 01".toList]).1
        ["$1 ADI 00".toList, "JMP $1".toList, "$1 ADI 01".toList]).2).length) ∧
    Ev.refOk 1 0 = Ev.refOk 1 (lastD (declsOf 1 [Ev.decl 1 0 true])
      ((runPass false (initGlob (fun _ => 0))
        ["$1 ADI 00".toList, "JMP $1".toList, "$1 ADI 01".toList]).1.labels 1)) := by
  have h := C3_amended_warnings (fun _ => 0)
    ["$1 ADI 00".toList, "JMP $1".toList, "$1 ADI 01".toList] 1
    (by decide) (by decide) (by decide) (by decide)
  exact ⟨h.1, h.2.1 [Ev.decl 1 0 true] (Ev.refOk 1 0) [Ev.decl 1 2 true] (by rfl) rfl⟩

/-- C9 amended: the label tokens `parse_label p 10 4 9999` accepts are
exactly: the bare marker (empty suffix, accepted as label 0), or optional
`strtoul` whitespace, an optional single `+` or `-` sign and one or more
decimal digits, at most 4 characters in all, where a `-` sign is accepted
only when the digits denote zero (any other negation wraps to a 32-bit
value above 9999); an accepted token's value is the digits' value (0 for
the signed-zero and empty cases).  Every other `$`-token resolves to
UNDEFINED and, on pass 1, records a syntax error and abandons the line
without any other state change. -/
theorem C9_amended_label_grammar :
    (∀ (s : List Char) (n : Nat), amendedLabelVal s n →
      parse_label s 10 4 9999 = n ∧ n ≠ INVALID) ∧
    (∀ s : List Char, parse_label s 10 4 9999 ≠ INVALID →
      amendedLabelVal s (parse_label s 10 4 9999)) ∧
    (∀ (g : Glob) (t : List Char) (ts : List (List Char)),
      t.head? = some '$' → parse_label t.tail 10 4 9999 = INVALID →
      runLineToks false g (t :: ts) = ({ g with syn := g.syn + 1 }, [Ev.synErr])) := by
  refine ⟨?_, amended_of_parse10, ?_⟩
  · intro s n h
    refine ⟨parse10_of_amended s n h, ?_⟩
    rcases h with ⟨-, hn⟩ | ⟨ws, sg, ds, hsplit, -, -, -, hdig, hlen, -, hn⟩
    · rw [hn]
      decide
    · have hds4 : ds.length ≤ 4 := by
        have h0 := congrArg List.length hsplit
        simp [List.length_append] at h0
        omega
      have hv : digitsToNat 10 ds < 10000 := by
        refine lt_of_lt_of_le (digitsToNat_lt ds hdig) ?_
        calc 10 ^ ds.length ≤ 10 ^ 4 := Nat.pow_le_pow_right (by norm_num) hds4
          _ = 10000 := by norm_num
      rw [hn]
      by_cases hsg2 : sg = ['-']
      · rw [if_pos hsg2]
        decide
      · rw [if_neg hsg2]
        unfold INVALID
        omega
  · intro g t ts hhd hpar
    have hstep : step false g initLS t = .err { g with syn := g.syn + 1 } [.synErr] := by
      unfold step
      dsimp only [initLS]
      rw [if_pos hhd]
      simp only [hpar]
      rw [if_pos ⟨by decide, trivial⟩]
    unfold runLineToks
    simp only [loop, hstep]
    rfl

/-- C9 amended witness: `$12` parses to 12, the bare `$` (empty suffix) is
accepted, and `$99999` (five digits) is a pass-1 syntax error. -/
theorem C9_amended_label_grammar_witness :
    parse_label ("12".toList) 10 4 9999 = 12 ∧
    amendedLabelVal [] (parse_label [] 10 4 9999) ∧
    runLineToks false (initGlob (fun _ => 0)) ["$99999".toList] =
      ({ initGlob (fun _ => 0) with syn := (initGlob (fun _ => 0)).syn + 1 },
        [Ev.synErr]) := by
  refine ⟨(C9_amended_label_grammar.1 ("12".toList) 12 ?_).1,
    C9_amended_label_grammar.2.1 [] (by decide),
    C9_amended_label_grammar.2.2 (initGlob (fun _ => 0)) ("$99999".toList) [] rfl (by rfl)⟩
  refine Or.inr ⟨[], [], "12".toList, rfl, by simp, Or.inl rfl, by decide, ?_, by decide,
    by intro hh; simp at hh, by decide⟩
  decide

end Ucasm
